import Mathlib

/-!
Shallow embedding of the matching-and-settlement core of the
`centralized-exchange` repository (Rust).

Modelling conventions:
* `rust_decimal::Decimal` (exact decimal arithmetic) is modelled as `ℚ`;
* `i32` quantities and identifiers are modelled as `Int`;
* `BTreeMap<Decimal, VecDeque<Order>>` is an association list sorted by
  strictly ascending key, each value a FIFO queue (front of the queue first);
* `HashMap<String, Order>` is an unordered association list with unique keys;
* fallible Rust functions returning `Result<_, String>` become `Except String _`;
* timestamps (`created_at`, `updated_at`, trade timestamps) and freshly drawn
  UUIDs carry no logic and are omitted from the records.
-/

set_option synthInstance.maxSize 512

deriving instance DecidableEq for Except

namespace CEX

/-- `rust_decimal::Decimal`, modelled as an exact rational. -/
abbrev Decimal := ℚ

/-- `order_book/types.rs`: `enum OrderSide`. -/
inductive OrderSide
  | Buy
  | Sell
deriving DecidableEq, Repr

/-- `order_book/types.rs`: `enum OrderType`. -/
inductive OrderType
  | Market
  | Limit
deriving DecidableEq, Repr

/-- `order_book/types.rs`: `enum TimeInForce`. -/
inductive TimeInForce
  | GTC
  | IOC
  | FOK
deriving DecidableEq, Repr

/-- `order_book/types.rs`: `enum OrderStatus`. -/
inductive OrderStatus
  | Pending
  | PartiallyFilled
  | Filled
  | Cancelled
  | Rejected
deriving DecidableEq, Repr

/-- `order_book/types.rs`: `struct Order` (timestamps omitted). -/
structure Order where
  id : String
  user_id : Int
  event_id : Int
  option_id : Int
  side : OrderSide
  order_type : OrderType
  time_in_force : TimeInForce
  price : Decimal
  quantity : Int
  filled_quantity : Int
  status : OrderStatus
deriving DecidableEq, Repr

/-- `Order::remaining_quantity`. -/
def Order.remaining_quantity (o : Order) : Int :=
  o.quantity - o.filled_quantity

/-- `Order::is_filled`: `self.filled_quantity >= self.quantity`. -/
def Order.is_filled (o : Order) : Bool :=
  o.quantity ≤ o.filled_quantity

/-- `Order::fill`. -/
def Order.fill (o : Order) (quantity : Int) : Order :=
  let o' := { o with filled_quantity := o.filled_quantity + quantity }
  if o'.is_filled then { o' with status := OrderStatus.Filled }
  else { o' with status := OrderStatus.PartiallyFilled }

/-- `Order::cancel`. -/
def Order.cancel (o : Order) : Order :=
  { o with status := OrderStatus.Cancelled }

/-- `Order::reject`. -/
def Order.reject (o : Order) : Order :=
  { o with status := OrderStatus.Rejected }

/-- `order_book/types.rs`: `struct Trade` (`id` UUID and timestamp omitted). -/
structure Trade where
  event_id : Int
  option_id : Int
  buyer_id : Int
  seller_id : Int
  buy_order_id : String
  sell_order_id : String
  price : Decimal
  quantity : Int
  total_amount : Decimal
deriving DecidableEq, Repr

/-- One `BTreeMap` entry of the book: the price key and the FIFO queue. -/
abbrev Level := Decimal × List Order

/-- `order_book/engine.rs`: `struct OrderBookEngine`.
`buy_orders` and `sell_orders` mirror the two `BTreeMap`s and are kept in
ascending key order; `orders_map` mirrors the `HashMap`. -/
structure OrderBookEngine where
  event_id : Int
  option_id : Int
  buy_orders : List Level
  sell_orders : List Level
  orders_map : List (String × Order)
  trades : List Trade
  last_trade_price : Option Decimal
deriving DecidableEq, Repr

/-- `BTreeMap::get` on the sorted association list. -/
def btGet (p : Decimal) : List Level → Option (List Order)
  | [] => none
  | (q, v) :: rest => if p = q then some v else btGet p rest

/-- `BTreeMap::remove` (drops the unique entry with the given key). -/
def btRemove (p : Decimal) : List Level → List Level
  | [] => []
  | (q, v) :: rest => if p = q then rest else (q, v) :: btRemove p rest

/-- `BTreeMap::insert`: replaces the entry at an existing key, otherwise
inserts keeping the keys ascending. -/
def btInsert (p : Decimal) (v : List Order) : List Level → List Level
  | [] => [(p, v)]
  | (q, w) :: rest =>
    if p < q then (p, v) :: (q, w) :: rest
    else if p = q then (p, v) :: rest
    else (q, w) :: btInsert p v rest

/-- `HashMap::insert`. -/
def hmInsert (k : String) (o : Order) : List (String × Order) → List (String × Order)
  | [] => [(k, o)]
  | (k', o') :: rest => if k = k' then (k, o) :: rest else (k', o') :: hmInsert k o rest

/-- `HashMap::remove` (keys are unique, so filtering removes that entry). -/
def hmRemove (k : String) (m : List (String × Order)) : List (String × Order) :=
  m.filter (fun e => e.1 ≠ k)

/-- `HashMap::get`. -/
def hmGet (k : String) : List (String × Order) → Option Order
  | [] => none
  | (k', o) :: rest => if k = k' then some o else hmGet k rest

/-- `OrderBookEngine::execute_trade`.  Returns the updated engine, the trade,
and the two updated orders (the Rust function mutates them in place). -/
def execute_trade (eng : OrderBookEngine) (buy_order sell_order : Order)
    (price : Decimal) : Except String (OrderBookEngine × Trade × Order × Order) :=
  let quantity := min buy_order.remaining_quantity sell_order.remaining_quantity
  if quantity ≤ 0 then Except.error "Invalid trade quantity"
  else
    let buy' := buy_order.fill quantity
    let sell' := sell_order.fill quantity
    let trade : Trade :=
      { event_id := eng.event_id
        option_id := eng.option_id
        buyer_id := buy_order.user_id
        seller_id := sell_order.user_id
        buy_order_id := buy_order.id
        sell_order_id := sell_order.id
        price := price
        quantity := quantity
        total_amount := price * (quantity : Decimal) }
    let ts := eng.trades ++ [trade]
    let ts := if 1000 < ts.length then ts.tail else ts
    Except.ok ({ eng with last_trade_price := some price, trades := ts }, trade, buy', sell')

/-- Inner `while let Some(counter_order) = orders_at_price.pop_front()` loop of
`match_order` for a buy aggressor (counter orders are resting sells).  Returns
the engine, the updated aggressor, the `remaining_orders` queue and the trades
produced at this level. -/
def match_queue_buy (eng : OrderBookEngine) (order : Order) (price : Decimal) :
    List Order → Except String (OrderBookEngine × Order × List Order × List Trade)
  | [] => Except.ok (eng, order, [], [])
  | counter :: rest =>
    if order.is_filled then
      match match_queue_buy eng order price rest with
      | Except.error e => Except.error e
      | Except.ok (eng2, o2, rem, ts) => Except.ok (eng2, o2, counter :: rem, ts)
    else
      match execute_trade eng order counter price with
      | Except.error e => Except.error e
      | Except.ok (eng1, trade, order1, counter1) =>
        let step :=
          if counter1.is_filled then
            ([], { eng1 with orders_map := hmRemove counter1.id eng1.orders_map })
          else
            ([counter1], { eng1 with orders_map := hmInsert counter1.id counter1 eng1.orders_map })
        match match_queue_buy step.2 order1 price rest with
        | Except.error e => Except.error e
        | Except.ok (eng2, o2, rem, ts) => Except.ok (eng2, o2, step.1 ++ rem, trade :: ts)

/-- Inner queue loop of `match_order` for a sell aggressor (counter orders are
resting buys; note the swapped `execute_trade` arguments in the source). -/
def match_queue_sell (eng : OrderBookEngine) (order : Order) (price : Decimal) :
    List Order → Except String (OrderBookEngine × Order × List Order × List Trade)
  | [] => Except.ok (eng, order, [], [])
  | counter :: rest =>
    if order.is_filled then
      match match_queue_sell eng order price rest with
      | Except.error e => Except.error e
      | Except.ok (eng2, o2, rem, ts) => Except.ok (eng2, o2, counter :: rem, ts)
    else
      match execute_trade eng counter order price with
      | Except.error e => Except.error e
      | Except.ok (eng1, trade, counter1, order1) =>
        let step :=
          if counter1.is_filled then
            ([], { eng1 with orders_map := hmRemove counter1.id eng1.orders_map })
          else
            ([counter1], { eng1 with orders_map := hmInsert counter1.id counter1 eng1.orders_map })
        match match_queue_sell step.2 order1 price rest with
        | Except.error e => Except.error e
        | Except.ok (eng2, o2, rem, ts) => Except.ok (eng2, o2, step.1 ++ rem, trade :: ts)

/-- Outer `for price in prices_to_remove` loop of `match_order`, buy side. -/
def match_prices_buy (eng : OrderBookEngine) (order : Order) :
    List Decimal → Except String (OrderBookEngine × Order × List Trade)
  | [] => Except.ok (eng, order, [])
  | price :: rest =>
    if order.is_filled then Except.ok (eng, order, [])
    else
      match btGet price eng.sell_orders with
      | none => match_prices_buy eng order rest
      | some q =>
        let eng1 := { eng with sell_orders := btRemove price eng.sell_orders }
        match match_queue_buy eng1 order price q with
        | Except.error e => Except.error e
        | Except.ok (eng2, order2, rem, ts) =>
          let eng3 := if rem.isEmpty then eng2
            else { eng2 with sell_orders := btInsert price rem eng2.sell_orders }
          match match_prices_buy eng3 order2 rest with
          | Except.error e => Except.error e
          | Except.ok (eng4, o4, ts2) => Except.ok (eng4, o4, ts ++ ts2)

/-- Outer price-level loop of `match_order`, sell side. -/
def match_prices_sell (eng : OrderBookEngine) (order : Order) :
    List Decimal → Except String (OrderBookEngine × Order × List Trade)
  | [] => Except.ok (eng, order, [])
  | price :: rest =>
    if order.is_filled then Except.ok (eng, order, [])
    else
      match btGet price eng.buy_orders with
      | none => match_prices_sell eng order rest
      | some q =>
        let eng1 := { eng with buy_orders := btRemove price eng.buy_orders }
        match match_queue_sell eng1 order price q with
        | Except.error e => Except.error e
        | Except.ok (eng2, order2, rem, ts) =>
          let eng3 := if rem.isEmpty then eng2
            else { eng2 with buy_orders := btInsert price rem eng2.buy_orders }
          match match_prices_sell eng3 order2 rest with
          | Except.error e => Except.error e
          | Except.ok (eng4, o4, ts2) => Except.ok (eng4, o4, ts ++ ts2)

/-- `OrderBookEngine::match_order`.  For a buy the `prices_to_remove` are the
ask keys `<= order.price` in ascending (`BTreeMap` iteration) order; for a
sell the bid keys `>= order.price` in descending (`iter().rev()`) order. -/
def match_order (eng : OrderBookEngine) (order : Order) :
    Except String (OrderBookEngine × Order × List Trade) :=
  match order.side with
  | OrderSide.Buy =>
    let prices := (eng.sell_orders.filter (fun l => l.1 ≤ order.price)).map Prod.fst
    match_prices_buy eng order prices
  | OrderSide.Sell =>
    let prices :=
      ((eng.buy_orders.filter (fun l => order.price ≤ l.1)).map Prod.fst).reverse
    match_prices_sell eng order prices

/-- Inner loop of `can_fill_entire_order` over one queue; returns the value of
`remaining` on exit (an early `return true` in the source corresponds to
reaching `0`). -/
def can_fill_queue (orders : List Order) (remaining : Int) : Int :=
  match orders with
  | [] => remaining
  | o :: rest =>
    let r := remaining - min o.remaining_quantity remaining
    if r = 0 then 0 else can_fill_queue rest r

/-- `can_fill_entire_order`, buy side: walk the asks ascending, breaking at the
first price above the order limit. -/
def can_fill_buy (order_price : Decimal) (levels : List Level) (remaining : Int) : Int :=
  match levels with
  | [] => remaining
  | (price, orders) :: rest =>
    if order_price < price then remaining
    else
      let r := can_fill_queue orders remaining
      if r = 0 then 0 else can_fill_buy order_price rest r

/-- `can_fill_entire_order`, sell side: walk the bids descending, breaking at
the first price below the order limit. -/
def can_fill_sell (order_price : Decimal) (levels : List Level) (remaining : Int) : Int :=
  match levels with
  | [] => remaining
  | (price, orders) :: rest =>
    if price < order_price then remaining
    else
      let r := can_fill_queue orders remaining
      if r = 0 then 0 else can_fill_sell order_price rest r

/-- `OrderBookEngine::can_fill_entire_order`. -/
def can_fill_entire_order (eng : OrderBookEngine) (order : Order) : Bool :=
  match order.side with
  | OrderSide.Buy => can_fill_buy order.price eng.sell_orders order.quantity = 0
  | OrderSide.Sell => can_fill_sell order.price eng.buy_orders.reverse order.quantity = 0

/-- Inner queue walk of `execute_market_order`, accumulating
`(total_cost, total_quantity)`; breaks once `remaining <= total_quantity`. -/
def mkt_queue (price : Decimal) (remaining : Int) (orders : List Order)
    (cost : Decimal) (qty : Int) : Decimal × Int :=
  match orders with
  | [] => (cost, qty)
  | o :: rest =>
    let fq := min o.remaining_quantity (remaining - qty)
    let cost' := cost + price * (fq : Decimal)
    let qty' := qty + fq
    if remaining ≤ qty' then (cost', qty')
    else mkt_queue price remaining rest cost' qty'

/-- Outer level walk of `execute_market_order`. -/
def mkt_levels (remaining : Int) (levels : List Level) (cost : Decimal) (qty : Int) :
    Decimal × Int :=
  match levels with
  | [] => (cost, qty)
  | (price, orders) :: rest =>
    let r := mkt_queue price remaining orders cost qty
    if remaining ≤ r.2 then r
    else mkt_levels remaining rest r.1 r.2

/-- `OrderBookEngine::execute_market_order`: computes the volume-weighted
average price over the opposite side, stores it in `order.price`, then calls
`match_order` with that price. -/
def execute_market_order (eng : OrderBookEngine) (order : Order) :
    Except String (OrderBookEngine × Order × List Trade) :=
  let remaining := order.remaining_quantity
  match order.side with
  | OrderSide.Buy =>
    let r := mkt_levels remaining eng.sell_orders 0 0
    if r.2 = 0 then Except.error "No liquidity available"
    else match_order eng { order with price := r.1 / (r.2 : Decimal) }
  | OrderSide.Sell =>
    let r := mkt_levels remaining eng.buy_orders.reverse 0 0
    if r.2 = 0 then Except.error "No liquidity available"
    else match_order eng { order with price := r.1 / (r.2 : Decimal) }

/-- `entry(price).or_insert_with(VecDeque::new).push_back(order)`. -/
def btPushBack (p : Decimal) (o : Order) (m : List Level) : List Level :=
  match btGet p m with
  | some q => btInsert p (q ++ [o]) m
  | none => btInsert p [o] m

/-- `OrderBookEngine::add_order_to_book`. -/
def add_order_to_book (eng : OrderBookEngine) (order : Order) : OrderBookEngine :=
  let eng' :=
    match order.side with
    | OrderSide.Buy => { eng with buy_orders := btPushBack order.price order eng.buy_orders }
    | OrderSide.Sell => { eng with sell_orders := btPushBack order.price order eng.sell_orders }
  { eng' with orders_map := hmInsert order.id order eng'.orders_map }

/-- `OrderBookEngine::submit_order`.  Returns the final engine, the final state
of the submitted order, and the produced trades. -/
def submit_order (eng : OrderBookEngine) (order : Order) :
    Except String (OrderBookEngine × Order × List Trade) :=
  if order.event_id ≠ eng.event_id ∨ order.option_id ≠ eng.option_id then
    Except.error "Order doesn't match this order book"
  else if order.quantity ≤ 0 then
    Except.error "Order quantity must be positive"
  else if order.price ≤ 0 then
    Except.error "Order price must be positive"
  else if order.time_in_force = TimeInForce.FOK ∧ can_fill_entire_order eng order = false then
    Except.ok (eng, order.reject, [])
  else
    match (if order.order_type = OrderType.Market then execute_market_order eng order
           else match_order eng order) with
    | Except.error e => Except.error e
    | Except.ok (eng1, order1, trades) =>
      match order1.time_in_force with
      | TimeInForce.FOK =>
        if order1.is_filled then Except.ok (eng1, order1, trades)
        else Except.error "FOK order could not be fully filled"
      | TimeInForce.IOC =>
        if order1.is_filled then Except.ok (eng1, order1, trades)
        else Except.ok (eng1, order1.cancel, trades)
      | TimeInForce.GTC =>
        if order1.is_filled = false ∧ order1.status ≠ OrderStatus.Cancelled then
          Except.ok (add_order_to_book eng1 order1, order1, trades)
        else Except.ok (eng1, order1, trades)

/-- `OrderBookEngine::cancel_order`. -/
def cancel_order (eng : OrderBookEngine) (order_id : String) :
    Except String (OrderBookEngine × Order) :=
  match hmGet order_id eng.orders_map with
  | none => Except.error "Order not found"
  | some o =>
    let eng1 := { eng with orders_map := hmRemove order_id eng.orders_map }
    let order := o.cancel
    match order.side with
    | OrderSide.Buy =>
      match btGet order.price eng1.buy_orders with
      | none => Except.ok (eng1, order)
      | some q =>
        let q' := q.filter (fun x => x.id ≠ order.id)
        let bo := if q'.isEmpty then btRemove order.price eng1.buy_orders
          else btInsert order.price q' eng1.buy_orders
        Except.ok ({ eng1 with buy_orders := bo }, order)
    | OrderSide.Sell =>
      match btGet order.price eng1.sell_orders with
      | none => Except.ok (eng1, order)
      | some q =>
        let q' := q.filter (fun x => x.id ≠ order.id)
        let so := if q'.isEmpty then btRemove order.price eng1.sell_orders
          else btInsert order.price q' eng1.sell_orders
        Except.ok ({ eng1 with sell_orders := so }, order)

/-- `order_book/types.rs`: `struct PriceLevel`. -/
structure PriceLevel where
  price : Decimal
  quantity : Int
  order_count : Nat
deriving DecidableEq, Repr

/-- Total remaining quantity in a queue. -/
def queue_quantity (orders : List Order) : Int :=
  (orders.map Order.remaining_quantity).sum

/-- `OrderBookEngine::get_bid_levels`: top 10 bid levels, best (highest) first. -/
def get_bid_levels (eng : OrderBookEngine) : List PriceLevel :=
  (eng.buy_orders.reverse.take 10).map
    (fun l => { price := l.1, quantity := queue_quantity l.2, order_count := l.2.length })

/-- `OrderBookEngine::get_ask_levels`: top 10 ask levels, best (lowest) first. -/
def get_ask_levels (eng : OrderBookEngine) : List PriceLevel :=
  (eng.sell_orders.take 10).map
    (fun l => { price := l.1, quantity := queue_quantity l.2, order_count := l.2.length })

/-- `OrderBookEngine::get_best_bid_price`. -/
def get_best_bid_price (eng : OrderBookEngine) : Option Decimal :=
  (eng.buy_orders.map Prod.fst).getLast?

/-- `OrderBookEngine::get_best_ask_price`. -/
def get_best_ask_price (eng : OrderBookEngine) : Option Decimal :=
  (eng.sell_orders.map Prod.fst).head?

/-- `OrderBookEngine::calculate_mid_price`. -/
def calculate_mid_price (eng : OrderBookEngine) : Option Decimal :=
  match get_best_bid_price eng, get_best_ask_price eng with
  | some best_bid, some best_ask => some ((best_bid + best_ask) / 2)
  | _, _ => none

/-- `OrderBookEngine::get_predicted_price`. -/
def get_predicted_price (eng : OrderBookEngine) : Option Decimal :=
  let bid_levels := get_bid_levels eng
  let ask_levels := get_ask_levels eng
  if bid_levels.isEmpty ∨ ask_levels.isEmpty then eng.last_trade_price
  else
    let bid_volume := ((bid_levels.take 5).map PriceLevel.quantity).sum
    let ask_volume := ((ask_levels.take 5).map PriceLevel.quantity).sum
    let total_volume := bid_volume + ask_volume
    if total_volume = 0 then calculate_mid_price eng
    else
      let bid_weight := (bid_volume : Decimal) / (total_volume : Decimal)
      let ask_weight := (ask_volume : Decimal) / (total_volume : Decimal)
      match get_best_bid_price eng, get_best_ask_price eng with
      | some best_bid, some best_ask =>
        some (best_bid * ask_weight + best_ask * bid_weight)
      | _, _ => none

/-! ## Position tracker (`order_book/position_tracker.rs`)

The `user_positions` table is modelled as a list of rows; the unique index on
`(user_id, event_id, option_id)` makes `find?` the lookup and a keyed `map` the
row update. -/

/-- A row of the `user_positions` table (timestamps and surrogate id omitted). -/
structure PositionRow where
  user_id : Int
  event_id : Int
  option_id : Int
  quantity : Int
  average_price : Decimal
deriving DecidableEq, Repr

/-- The filter on the unique key `(user_id, event_id, option_id)`. -/
def pos_matches (user event opt : Int) (p : PositionRow) : Bool :=
  p.user_id == user && p.event_id == event && p.option_id == opt

/-- `PositionTracker::update_position` as a pure function on the table. -/
def update_position (table : List PositionRow) (user event opt quantity_change : Int)
    (price : Decimal) : Except String (List PositionRow) :=
  match table.find? (pos_matches user event opt) with
  | some position =>
    let old_quantity := position.quantity
    let old_avg_price := position.average_price
    let new_quantity := old_quantity + quantity_change
    if new_quantity < 0 then Except.error "Insufficient shares to sell"
    else
      let updated :=
        if new_quantity = 0 then
          { position with quantity := 0, average_price := 0 }
        else if 0 < quantity_change then
          let total_cost := old_avg_price * (old_quantity : Decimal)
            + price * (quantity_change : Decimal)
          { position with quantity := new_quantity,
                          average_price := total_cost / (new_quantity : Decimal) }
        else
          { position with quantity := new_quantity }
      Except.ok (table.map (fun p => if pos_matches user event opt p then updated else p))
  | none =>
    if quantity_change < 0 then Except.error "Cannot sell shares you don't own"
    else
      Except.ok (table ++ [{ user_id := user, event_id := event, option_id := opt,
                             quantity := quantity_change, average_price := price }])

/-- `PositionTracker::update_positions_from_trade`: buyer `+q`, then seller
`-q`, in one transaction (an error leaves the table untouched). -/
def update_positions_from_trade (table : List PositionRow) (trade : Trade) :
    Except String (List PositionRow) :=
  match update_position table trade.buyer_id trade.event_id trade.option_id
      trade.quantity trade.price with
  | Except.error e => Except.error e
  | Except.ok t1 =>
    update_position t1 trade.seller_id trade.event_id trade.option_id
      (-trade.quantity) trade.price

/-! ## Event settlement (`handlers/event_settlement_handler.rs`)

The relevant slice of the durable store is modelled as lists of rows; the
handler's single transaction becomes a pure function from `Db` to an outcome. -/

/-- A row of the `events` table (only the fields `settle_event` reads/writes). -/
structure EventRow where
  id : Int
  title : String
  status : String
  end_time : Int
  resolved_by : Int
  winning_option_id : Int
  resolution_note : String
  resolved_at : Int
deriving DecidableEq, Repr

/-- A row of the `event_options` table. -/
structure OptionRow where
  id : Int
  event_id : Int
  option_text : String
  is_winning_option : Option Bool
deriving DecidableEq, Repr

/-- A row of the `users` table. -/
structure UserRow where
  id : Int
  username : String
  wallet_balance : Decimal
deriving DecidableEq, Repr

/-- A row of the `transaction` table (`reference_id` holds a fresh UUID and is
omitted; `r#type` is rendered `tx_type`, `status` is `tx_status`). -/
structure TransactionRow where
  user_id : Int
  tx_type : String
  amount : Decimal
  balance_before : Decimal
  balance_after : Decimal
  tx_status : String
deriving DecidableEq, Repr

/-- The slice of the durable store touched by settlement. -/
structure Db where
  events : List EventRow
  options : List OptionRow
  positions : List PositionRow
  users : List UserRow
  transactions : List TransactionRow
deriving DecidableEq, Repr

/-- `events::Entity::find_by_id`. -/
def find_event (db : Db) (eid : Int) : Option EventRow :=
  db.events.find? (fun e => e.id == eid)

/-- `event_options::Entity::find_by_id`. -/
def find_option (db : Db) (oid : Int) : Option OptionRow :=
  db.options.find? (fun o => o.id == oid)

/-- `users::Entity::find_by_id`. -/
def find_user (db : Db) (uid : Int) : Option UserRow :=
  db.users.find? (fun u => u.id == uid)

/-- The HTTP-level outcome of `settle_event`. -/
inductive SettleOutcome
  | notFound
  | badRequest (message : String)
  | internalError (message : String)
  | ok (db : Db)
deriving DecidableEq, Repr

/-- The `for position in positions` loop of `settle_event`: pay winners, record
their payout transactions, close every position. -/
def settle_positions (db : Db) (winning_option_id : Int) :
    List PositionRow → Except String Db
  | [] => Except.ok db
  | position :: rest =>
    match find_user db position.user_id with
    | none => Except.error "User not found"
    | some user =>
      match find_option db position.option_id with
      | none => Except.error "Option not found"
      | some _opt =>
        let payout_per_share : Decimal := 1
        let is_winner := position.option_id = winning_option_id
        let payout : Decimal :=
          if is_winner then payout_per_share * (position.quantity : Decimal) else 0
        let db1 :=
          if is_winner ∧ 0 < payout then
            { db with
              users := db.users.map (fun u =>
                if u.id == position.user_id then
                  { u with wallet_balance := u.wallet_balance + payout }
                else u),
              transactions := db.transactions ++
                [{ user_id := position.user_id, tx_type := "event_payout",
                   amount := payout, balance_before := user.wallet_balance,
                   balance_after := user.wallet_balance + payout,
                   tx_status := "completed" }] }
          else db
        let db2 := { db1 with
          positions := db1.positions.map (fun p =>
            if pos_matches position.user_id position.event_id position.option_id p
            then { p with quantity := 0 } else p) }
        settle_positions db2 winning_option_id rest

/-- `settle_event` (the admin-role check is upstream authorization and is not
modelled; `now` stands for `Utc::now()`). -/
def settle_event (db : Db) (event_id winning_option_id resolver_id : Int)
    (resolution_note : String) (now : Int) : SettleOutcome :=
  match find_event db event_id with
  | none => SettleOutcome.notFound
  | some _event =>
    if _event.status = "resolved" then
      SettleOutcome.badRequest "Event is already resolved"
    else if now < _event.end_time ∧ _event.status ≠ "ended" then
      SettleOutcome.badRequest "Event has not ended yet. You can only settle ended events."
    else
      match find_option db winning_option_id with
      | some wopt =>
        if wopt.event_id = event_id then
          let db1 := { db with options := db.options.map (fun opt =>
            if opt.event_id == event_id then
              { opt with is_winning_option := some (opt.id == winning_option_id) }
            else opt) }
          let positions := db1.positions.filter
            (fun p => p.event_id == event_id && 0 < p.quantity)
          match settle_positions db1 winning_option_id positions with
          | Except.error e => SettleOutcome.internalError e
          | Except.ok db2 =>
            let db3 := { db2 with events := db2.events.map (fun e =>
              if e.id == event_id then
                { e with status := "resolved", resolved_by := resolver_id,
                         winning_option_id := winning_option_id,
                         resolution_note := resolution_note, resolved_at := now }
              else e) }
            SettleOutcome.ok db3
        else SettleOutcome.badRequest "Invalid winning option ID"
      | none => SettleOutcome.badRequest "Invalid winning option ID"

/-! ## Order service submit stage (`handlers/order_book_handler.rs`, lines
186-212 and 440-445)

After persisting the pending order and loading the book, `place_order` branches
on the engine's `submit_order` result: an `Err` writes a rejected order row
and answers 400; an `Ok` proceeds to the success response. -/

/-- The JSON body of the success response (`wallet_balance` omitted). -/
structure PlaceOrderResponse where
  success : Bool
  order_id : String
  trades : List Trade
deriving DecidableEq, Repr

/-- The HTTP-level outcome of the submit stage. -/
inductive PlaceOrderResult
  | httpOk (resp : PlaceOrderResponse)
  | httpBadRequest (message : String)
deriving DecidableEq, Repr

/-- The submit stage of `place_order`: the branch on `submit_order`, paired
with the order status written back to the orders table at this stage (`none`
when no rejection row is written). -/
def place_order_submit_stage (eng : OrderBookEngine) (order : Order) :
    PlaceOrderResult × Option OrderStatus :=
  match submit_order eng order with
  | Except.error e => (PlaceOrderResult.httpBadRequest e, some OrderStatus.Rejected)
  | Except.ok (_, _, trades) =>
    (PlaceOrderResult.httpOk { success := true, order_id := order.id, trades := trades },
     none)

/-! ## Well-formedness of a book and specification vocabulary -/

/-- A queue at price `p`: every resting order carries the level price, a
positive remaining quantity, and the side the map belongs to. -/
def queue_ok (side : OrderSide) (p : Decimal) (q : List Order) : Prop :=
  ∀ o ∈ q, o.price = p ∧ 0 < o.remaining_quantity ∧ o.side = side

/-- The `BTreeMap` invariant: keys strictly ascending. -/
def levels_sorted (ls : List Level) : Prop :=
  (ls.map Prod.fst).Chain' (· < ·)

/-- Every level of a side is a well-formed queue. -/
def side_ok (side : OrderSide) (ls : List Level) : Prop :=
  ∀ l ∈ ls, queue_ok side l.1 l.2

/-- Well-formed book: both sides sorted with well-formed queues. -/
def BookWF (eng : OrderBookEngine) : Prop :=
  levels_sorted eng.buy_orders ∧ levels_sorted eng.sell_orders ∧
  side_ok OrderSide.Buy eng.buy_orders ∧ side_ok OrderSide.Sell eng.sell_orders

/-- Total remaining quantity over a list of levels. -/
def levels_volume (ls : List Level) : Int :=
  (ls.map (fun l => queue_quantity l.2)).sum

/-- The aggregate resting volume at prices acceptable to `order` (asks at or
below a buy limit, bids at or above a sell limit). -/
def available_volume (eng : OrderBookEngine) (order : Order) : Int :=
  match order.side with
  | OrderSide.Buy => levels_volume (eng.sell_orders.filter (fun l => l.1 ≤ order.price))
  | OrderSide.Sell => levels_volume (eng.buy_orders.filter (fun l => order.price ≤ l.1))

/-- Two orders that agree on everything but `filled_quantity` and `status`
(matching mutates only those two fields of the aggressor). -/
def SameCore (a b : Order) : Prop :=
  a.id = b.id ∧ a.user_id = b.user_id ∧ a.event_id = b.event_id ∧
  a.option_id = b.option_id ∧ a.side = b.side ∧ a.order_type = b.order_type ∧
  a.time_in_force = b.time_in_force ∧ a.price = b.price ∧ a.quantity = b.quantity

/-- A resting price `p` crosses the aggressor limit, inclusively at equality. -/
def crosses (side : OrderSide) (limit p : Decimal) : Prop :=
  match side with
  | OrderSide.Buy => p ≤ limit
  | OrderSide.Sell => limit ≤ p

/-- The id of the resting counter-order recorded on a trade. -/
def trade_counter_id (side : OrderSide) (t : Trade) : String :=
  match side with
  | OrderSide.Buy => t.sell_order_id
  | OrderSide.Sell => t.buy_order_id

/-- The side of the book an aggressor matches against. -/
def opposite_levels (eng : OrderBookEngine) (side : OrderSide) : List Level :=
  match side with
  | OrderSide.Buy => eng.sell_orders
  | OrderSide.Sell => eng.buy_orders

/-- The opposite of a side. -/
def OrderSide.flip : OrderSide → OrderSide
  | OrderSide.Buy => OrderSide.Sell
  | OrderSide.Sell => OrderSide.Buy

/-- Trade prices run best-first: ascending through the asks for a buy
aggressor, descending through the bids for a sell aggressor. -/
def prices_best_first (side : OrderSide) (ps : List Decimal) : Prop :=
  match side with
  | OrderSide.Buy => ps.Chain' (· ≤ ·)
  | OrderSide.Sell => ps.Chain' (fun a b => b ≤ a)



instance (side : OrderSide) (p : Decimal) (q : List Order) : Decidable (queue_ok side p q) :=
  inferInstanceAs (Decidable (∀ o ∈ q, o.price = p ∧ 0 < o.remaining_quantity ∧ o.side = side))

def chainLtB : List Decimal → Bool
  | [] => true
  | [_] => true
  | a :: b :: rest => (decide (a < b)) && chainLtB (b :: rest)

theorem chainLtB_iff : ∀ l : List Decimal, chainLtB l = true ↔ l.Chain' (· < ·)
  | [] => by simp [chainLtB]
  | [a] => by simp [chainLtB]
  | a :: b :: rest => by
    rw [chainLtB, Bool.and_eq_true, decide_eq_true_eq, chainLtB_iff (b :: rest),
      List.chain'_cons]

instance (ls : List Level) : Decidable (levels_sorted ls) :=
  decidable_of_iff _ (chainLtB_iff (ls.map Prod.fst))

instance (side : OrderSide) (ls : List Level) : Decidable (side_ok side ls) :=
  inferInstanceAs (Decidable (∀ l ∈ ls, queue_ok side l.1 l.2))

instance (eng : OrderBookEngine) : Decidable (BookWF eng) :=
  inferInstanceAs (Decidable (levels_sorted eng.buy_orders ∧ levels_sorted eng.sell_orders ∧
    side_ok OrderSide.Buy eng.buy_orders ∧ side_ok OrderSide.Sell eng.sell_orders))

instance (a b : Order) : Decidable (SameCore a b) :=
  inferInstanceAs (Decidable (a.id = b.id ∧ a.user_id = b.user_id ∧ a.event_id = b.event_id ∧
    a.option_id = b.option_id ∧ a.side = b.side ∧ a.order_type = b.order_type ∧
    a.time_in_force = b.time_in_force ∧ a.price = b.price ∧ a.quantity = b.quantity))

instance (side : OrderSide) (limit p : Decimal) : Decidable (crosses side limit p) :=
  match side with
  | OrderSide.Buy => inferInstanceAs (Decidable (p ≤ limit))
  | OrderSide.Sell => inferInstanceAs (Decidable (limit ≤ p))

instance (side : OrderSide) (ps : List Decimal) : Decidable (prices_best_first side ps) :=
  match side with
  | OrderSide.Buy => inferInstanceAs (Decidable (ps.Chain' (· ≤ ·)))
  | OrderSide.Sell => inferInstanceAs (Decidable (ps.Chain' (fun a b => b ≤ a)))

/-! ## Basic lemmas about orders and trades -/

theorem Order.fill_remaining (o : Order) (q : Int) :
    (o.fill q).remaining_quantity = o.remaining_quantity - q := by
  simp only [Order.fill, Order.remaining_quantity]
  split <;> simp <;> omega

theorem Order.fill_sameCore (o : Order) (q : Int) : SameCore (o.fill q) o := by
  simp only [Order.fill, SameCore]
  split <;> simp

theorem Order.is_filled_iff (o : Order) :
    o.is_filled = true ↔ o.remaining_quantity ≤ 0 := by
  simp only [Order.is_filled, Order.remaining_quantity, decide_eq_true_eq]
  omega

theorem Order.not_filled_iff (o : Order) :
    o.is_filled = false ↔ 0 < o.remaining_quantity := by
  simp only [Order.is_filled, Order.remaining_quantity, decide_eq_false_iff_not]
  omega

theorem SameCore.refl (o : Order) : SameCore o o := by
  simp [SameCore]

theorem SameCore.trans {a b c : Order} (h1 : SameCore a b) (h2 : SameCore b c) :
    SameCore a c := by
  simp only [SameCore] at *
  refine ⟨?_, ?_, ?_, ?_, ?_, ?_, ?_, ?_, ?_⟩ <;> simp_all

/-! ## Volume and map helper lemmas -/

theorem queue_quantity_nil : queue_quantity [] = 0 := rfl

theorem queue_quantity_cons (o : Order) (q : List Order) :
    queue_quantity (o :: q) = o.remaining_quantity + queue_quantity q := by
  simp [queue_quantity]

theorem queue_quantity_nonneg {side : OrderSide} {p : Decimal} {q : List Order}
    (h : queue_ok side p q) : 0 ≤ queue_quantity q := by
  induction q with
  | nil => simp [queue_quantity]
  | cons o rest ih =>
    have ho := h o (by simp)
    have hr : queue_ok side p rest := fun x hx => h x (by simp [hx])
    have := ih hr
    rw [queue_quantity_cons]
    omega

theorem levels_volume_nil : levels_volume [] = 0 := rfl

theorem levels_volume_cons (l : Level) (ls : List Level) :
    levels_volume (l :: ls) = queue_quantity l.2 + levels_volume ls := by
  simp [levels_volume]

theorem levels_volume_nonneg {side : OrderSide} {ls : List Level}
    (h : ∀ l ∈ ls, queue_ok side l.1 l.2) : 0 ≤ levels_volume ls := by
  induction ls with
  | nil => simp [levels_volume]
  | cons l rest ih =>
    have hl := queue_quantity_nonneg (h l (by simp))
    have := ih (fun x hx => h x (by simp [hx]))
    rw [levels_volume_cons]
    omega

theorem btGet_eq_of_mem {m : List Level} {l : Level}
    (hnd : (m.map Prod.fst).Nodup) (hm : l ∈ m) : btGet l.1 m = some l.2 := by
  induction m with
  | nil => simp at hm
  | cons x rest ih =>
    rw [List.map_cons, List.nodup_cons] at hnd
    rcases List.mem_cons.mp hm with h | h
    · subst h; simp [btGet]
    · have hne : l.1 ≠ x.1 := by
        intro he
        exact hnd.1 (he ▸ List.mem_map_of_mem Prod.fst h)
      rw [btGet, if_neg hne]
      exact ih hnd.2 h

theorem btGet_btRemove_ne {p p' : Decimal} (hne : p' ≠ p) (m : List Level) :
    btGet p' (btRemove p m) = btGet p' m := by
  induction m with
  | nil => simp [btRemove]
  | cons x rest ih =>
    by_cases hx : p = x.1
    · have h2 : p' ≠ x.1 := hx ▸ hne
      simp [btRemove, if_pos hx, btGet, if_neg h2]
    · simp only [btRemove, if_neg hx]
      by_cases hx' : p' = x.1
      · simp [btGet, hx']
      · simp [btGet, hx', ih]

theorem btGet_btInsert_ne {p p' : Decimal} (hne : p' ≠ p) (v : List Order)
    (m : List Level) : btGet p' (btInsert p v m) = btGet p' m := by
  induction m with
  | nil => simp [btInsert, btGet, hne]
  | cons x rest ih =>
    by_cases h1 : p < x.1
    · simp [btInsert, if_pos h1, btGet, hne]
    · by_cases h2 : p = x.1
      · have h3 : p' ≠ x.1 := h2 ▸ hne
        simp [btInsert, if_neg h1, if_pos h2, btGet, if_neg hne, if_neg h3]
      · simp only [btInsert, if_neg h1, if_neg h2]
        by_cases hx' : p' = x.1
        · simp [btGet, hx']
        · simp [btGet, hx', ih]

theorem chain'_le_of_const {l : List Decimal} {p : Decimal} (h : ∀ x ∈ l, x = p) :
    l.Chain' (· ≤ ·) := by
  induction l with
  | nil => simp
  | cons a rest ih =>
    rcases rest with _ | ⟨b, rest'⟩
    · simp
    · refine List.Chain'.cons ?_ (ih ?_)
      · rw [h a (by simp), h b (by simp)]
      · intro x hx; exact h x (by simp [hx])

theorem chain'_ge_of_const {l : List Decimal} {p : Decimal} (h : ∀ x ∈ l, x = p) :
    l.Chain' (fun a b => b ≤ a) := by
  induction l with
  | nil => simp
  | cons a rest ih =>
    rcases rest with _ | ⟨b, rest'⟩
    · simp
    · refine List.Chain'.cons ?_ (ih ?_)
      · rw [h a (by simp), h b (by simp)]
      · intro x hx; exact h x (by simp [hx])

/-! ## The trade constructor -/

theorem execute_trade_spec (eng : OrderBookEngine) (buy sell : Order) (price : Decimal)
    (hb : 0 < buy.remaining_quantity) (hs : 0 < sell.remaining_quantity) :
    ∃ eng' t buy' sell',
      execute_trade eng buy sell price = Except.ok (eng', t, buy', sell') ∧
      t.quantity = min buy.remaining_quantity sell.remaining_quantity ∧
      t.price = price ∧ t.buy_order_id = buy.id ∧ t.sell_order_id = sell.id ∧
      t.buyer_id = buy.user_id ∧ t.seller_id = sell.user_id ∧
      buy' = buy.fill t.quantity ∧ sell' = sell.fill t.quantity ∧
      eng'.sell_orders = eng.sell_orders ∧ eng'.buy_orders = eng.buy_orders ∧
      eng'.orders_map = eng.orders_map ∧
      eng'.event_id = eng.event_id ∧ eng'.option_id = eng.option_id := by
  have hq : ¬ (min buy.remaining_quantity sell.remaining_quantity ≤ 0) := by omega
  simp only [execute_trade, if_neg hq]
  exact ⟨_, _, _, _, rfl, rfl, rfl, rfl, rfl, rfl, rfl, rfl, rfl, rfl, rfl, rfl, rfl, rfl⟩

/-! ## The inner matching loop, buy side -/

theorem match_queue_buy_spec (p : Decimal) (q : List Order) :
    ∀ (eng : OrderBookEngine) (order : Order),
    queue_ok OrderSide.Sell p q →
    0 ≤ order.remaining_quantity →
    ∃ eng2 o2 rem ts, match_queue_buy eng order p q = Except.ok (eng2, o2, rem, ts) ∧
      (∀ t ∈ ts, t.price = p) ∧
      ts.map Trade.sell_order_id = (q.map Order.id).take ts.length ∧
      (∀ t ∈ ts, ∃ r ∈ q, r.id = t.sell_order_id ∧ t.price = r.price ∧
        r.side = OrderSide.Sell) ∧
      (order.is_filled = true → ts = []) ∧
      SameCore o2 order ∧
      o2.remaining_quantity = max 0 (order.remaining_quantity - queue_quantity q) ∧
      eng2.sell_orders = eng.sell_orders ∧ eng2.buy_orders = eng.buy_orders ∧
      eng2.event_id = eng.event_id ∧ eng2.option_id = eng.option_id := by
  induction q with
  | nil =>
    intro eng order hok h0
    refine ⟨eng, order, [], [], ?_, by simp, by simp, by simp, fun _ => rfl,
      SameCore.refl order, ?_, rfl, rfl, rfl, rfl⟩
    · simp [match_queue_buy]
    · rw [queue_quantity_nil]; omega
  | cons counter rest ih =>
    intro eng order hok h0
    have hokr : queue_ok OrderSide.Sell p rest := fun x hx => hok x (by simp [hx])
    have hvr : 0 ≤ queue_quantity rest := queue_quantity_nonneg hokr
    have hc := hok counter (by simp)
    cases hfil : order.is_filled with
    | true =>
      have hrem0 : order.remaining_quantity = 0 := by
        have := (Order.is_filled_iff order).mp hfil
        omega
      obtain ⟨eng2, o2, rem, ts, heq, hpr, htake, hmem, hnil, hcore, hrm, hs, hb, he, ho⟩ :=
        ih eng order hokr h0
      have hts : ts = [] := hnil hfil
      subst hts
      refine ⟨eng2, o2, counter :: rem, [], ?_, by simp, by simp, by simp,
        fun _ => rfl, hcore, ?_, hs, hb, he, ho⟩
      · simp [match_queue_buy, hfil, heq]
      · rw [queue_quantity_cons]
        omega
    | false =>
      have hbrem : 0 < order.remaining_quantity := (Order.not_filled_iff order).mp hfil
      obtain ⟨eng1, t, o1, c1, heqt, htq, htp, htb, hts, htbu, htse, hbo1, hco1,
        he1s, he1b, he1m, he1e, he1o⟩ :=
        execute_trade_spec eng order counter p hbrem hc.2.1
      have ho1rem : o1.remaining_quantity = order.remaining_quantity - t.quantity := by
        rw [hbo1, Order.fill_remaining]
      have ho1nn : 0 ≤ o1.remaining_quantity := by
        rw [ho1rem, htq]; omega
      have ho1core : SameCore o1 order := hbo1 ▸ Order.fill_sameCore order t.quantity
      cases hcf : c1.is_filled with
      | true =>
        obtain ⟨eng2, o2, rem2, ts2, heq2, hpr2, htake2, hmem2, hnil2, hcore2, hrm2,
          hs2, hb2, he2, ho2⟩ :=
          ih { eng1 with orders_map := hmRemove c1.id eng1.orders_map } o1 hokr ho1nn
        refine ⟨eng2, o2, [] ++ rem2, t :: ts2, ?_, ?_, ?_, ?_, ?_, ?_, ?_, ?_, ?_, ?_, ?_⟩
        · simp [match_queue_buy, hfil, heqt, hcf, heq2]
        · intro x hx
          rcases List.mem_cons.mp hx with h | h
          · rw [h, htp]
          · exact hpr2 x h
        · simp only [List.map_cons, List.length_cons, List.take_succ_cons, htake2, hts]
        · intro x hx
          rcases List.mem_cons.mp hx with h | h
          · exact ⟨counter, by simp, by rw [h, hts], by rw [h, htp, hc.1], hc.2.2⟩
          · obtain ⟨r, hr, hri, hrp, hrs⟩ := hmem2 x h
            exact ⟨r, by simp [hr], hri, hrp, hrs⟩
        · intro hcon; simp [hfil] at hcon
        · exact SameCore.trans hcore2 ho1core
        · rw [hrm2, ho1rem, htq, queue_quantity_cons]
          have := hc.2.1
          omega
        · rw [hs2, he1s]
        · rw [hb2, he1b]
        · rw [he2, he1e]
        · rw [ho2, he1o]
      | false =>
        obtain ⟨eng2, o2, rem2, ts2, heq2, hpr2, htake2, hmem2, hnil2, hcore2, hrm2,
          hs2, hb2, he2, ho2⟩ :=
          ih { eng1 with orders_map := hmInsert c1.id c1 eng1.orders_map } o1 hokr ho1nn
        refine ⟨eng2, o2, [c1] ++ rem2, t :: ts2, ?_, ?_, ?_, ?_, ?_, ?_, ?_, ?_, ?_, ?_, ?_⟩
        · simp [match_queue_buy, hfil, heqt, hcf, heq2]
        · intro x hx
          rcases List.mem_cons.mp hx with h | h
          · rw [h, htp]
          · exact hpr2 x h
        · simp only [List.map_cons, List.length_cons, List.take_succ_cons, htake2, hts]
        · intro x hx
          rcases List.mem_cons.mp hx with h | h
          · exact ⟨counter, by simp, by rw [h, hts], by rw [h, htp, hc.1], hc.2.2⟩
          · obtain ⟨r, hr, hri, hrp, hrs⟩ := hmem2 x h
            exact ⟨r, by simp [hr], hri, hrp, hrs⟩
        · intro hcon; simp [hfil] at hcon
        · exact SameCore.trans hcore2 ho1core
        · rw [hrm2, ho1rem, htq, queue_quantity_cons]
          have := hc.2.1
          omega
        · rw [hs2, he1s]
        · rw [hb2, he1b]
        · rw [he2, he1e]
        · rw [ho2, he1o]

/-! ## The inner matching loop, sell side -/

theorem match_queue_sell_spec (p : Decimal) (q : List Order) :
    ∀ (eng : OrderBookEngine) (order : Order),
    queue_ok OrderSide.Buy p q →
    0 ≤ order.remaining_quantity →
    ∃ eng2 o2 rem ts, match_queue_sell eng order p q = Except.ok (eng2, o2, rem, ts) ∧
      (∀ t ∈ ts, t.price = p) ∧
      ts.map Trade.buy_order_id = (q.map Order.id).take ts.length ∧
      (∀ t ∈ ts, ∃ r ∈ q, r.id = t.buy_order_id ∧ t.price = r.price ∧
        r.side = OrderSide.Buy) ∧
      (order.is_filled = true → ts = []) ∧
      SameCore o2 order ∧
      o2.remaining_quantity = max 0 (order.remaining_quantity - queue_quantity q) ∧
      eng2.sell_orders = eng.sell_orders ∧ eng2.buy_orders = eng.buy_orders ∧
      eng2.event_id = eng.event_id ∧ eng2.option_id = eng.option_id := by
  induction q with
  | nil =>
    intro eng order hok h0
    refine ⟨eng, order, [], [], ?_, by simp, by simp, by simp, fun _ => rfl,
      SameCore.refl order, ?_, rfl, rfl, rfl, rfl⟩
    · simp [match_queue_sell]
    · rw [queue_quantity_nil]; omega
  | cons counter rest ih =>
    intro eng order hok h0
    have hokr : queue_ok OrderSide.Buy p rest := fun x hx => hok x (by simp [hx])
    have hvr : 0 ≤ queue_quantity rest := queue_quantity_nonneg hokr
    have hc := hok counter (by simp)
    cases hfil : order.is_filled with
    | true =>
      have hrem0 : order.remaining_quantity = 0 := by
        have := (Order.is_filled_iff order).mp hfil
        omega
      obtain ⟨eng2, o2, rem, ts, heq, hpr, htake, hmem, hnil, hcore, hrm, hs, hb, he, ho⟩ :=
        ih eng order hokr h0
      have hts : ts = [] := hnil hfil
      subst hts
      refine ⟨eng2, o2, counter :: rem, [], ?_, by simp, by simp, by simp,
        fun _ => rfl, hcore, ?_, hs, hb, he, ho⟩
      · simp [match_queue_sell, hfil, heq]
      · rw [queue_quantity_cons]
        omega
    | false =>
      have hbrem : 0 < order.remaining_quantity := (Order.not_filled_iff order).mp hfil
      obtain ⟨eng1, t, c1, o1, heqt, htq, htp, htb, hts, htbu, htse, hco1, hbo1,
        he1s, he1b, he1m, he1e, he1o⟩ :=
        execute_trade_spec eng counter order p hc.2.1 hbrem
      have ho1rem : o1.remaining_quantity = order.remaining_quantity - t.quantity := by
        rw [hbo1, Order.fill_remaining]
      have ho1nn : 0 ≤ o1.remaining_quantity := by
        rw [ho1rem, htq]; omega
      have ho1core : SameCore o1 order := hbo1 ▸ Order.fill_sameCore order t.quantity
      cases hcf : c1.is_filled with
      | true =>
        obtain ⟨eng2, o2, rem2, ts2, heq2, hpr2, htake2, hmem2, hnil2, hcore2, hrm2,
          hs2, hb2, he2, ho2⟩ :=
          ih { eng1 with orders_map := hmRemove c1.id eng1.orders_map } o1 hokr ho1nn
        refine ⟨eng2, o2, [] ++ rem2, t :: ts2, ?_, ?_, ?_, ?_, ?_, ?_, ?_, ?_, ?_, ?_, ?_⟩
        · simp [match_queue_sell, hfil, heqt, hcf, heq2]
        · intro x hx
          rcases List.mem_cons.mp hx with h | h
          · rw [h, htp]
          · exact hpr2 x h
        · simp only [List.map_cons, List.length_cons, List.take_succ_cons, htake2, htb]
        · intro x hx
          rcases List.mem_cons.mp hx with h | h
          · exact ⟨counter, by simp, by rw [h, htb], by rw [h, htp, hc.1], hc.2.2⟩
          · obtain ⟨r, hr, hri, hrp, hrs⟩ := hmem2 x h
            exact ⟨r, by simp [hr], hri, hrp, hrs⟩
        · intro hcon; simp [hfil] at hcon
        · exact SameCore.trans hcore2 ho1core
        · rw [hrm2, ho1rem, htq, queue_quantity_cons]
          have := hc.2.1
          omega
        · rw [hs2, he1s]
        · rw [hb2, he1b]
        · rw [he2, he1e]
        · rw [ho2, he1o]
      | false =>
        obtain ⟨eng2, o2, rem2, ts2, heq2, hpr2, htake2, hmem2, hnil2, hcore2, hrm2,
          hs2, hb2, he2, ho2⟩ :=
          ih { eng1 with orders_map := hmInsert c1.id c1 eng1.orders_map } o1 hokr ho1nn
        refine ⟨eng2, o2, [c1] ++ rem2, t :: ts2, ?_, ?_, ?_, ?_, ?_, ?_, ?_, ?_, ?_, ?_, ?_⟩
        · simp [match_queue_sell, hfil, heqt, hcf, heq2]
        · intro x hx
          rcases List.mem_cons.mp hx with h | h
          · rw [h, htp]
          · exact hpr2 x h
        · simp only [List.map_cons, List.length_cons, List.take_succ_cons, htake2, htb]
        · intro x hx
          rcases List.mem_cons.mp hx with h | h
          · exact ⟨counter, by simp, by rw [h, htb], by rw [h, htp, hc.1], hc.2.2⟩
          · obtain ⟨r, hr, hri, hrp, hrs⟩ := hmem2 x h
            exact ⟨r, by simp [hr], hri, hrp, hrs⟩
        · intro hcon; simp [hfil] at hcon
        · exact SameCore.trans hcore2 ho1core
        · rw [hrm2, ho1rem, htq, queue_quantity_cons]
          have := hc.2.1
          omega
        · rw [hs2, he1s]
        · rw [hb2, he1b]
        · rw [he2, he1e]
        · rw [ho2, he1o]

/-! ## The outer matching loop, buy side -/

theorem match_prices_buy_spec (sub : List Level) :
    ∀ (eng : OrderBookEngine) (order : Order),
    (sub.map Prod.fst).Pairwise (· < ·) →
    (∀ l ∈ sub, btGet l.1 eng.sell_orders = some l.2) →
    (∀ l ∈ sub, queue_ok OrderSide.Sell l.1 l.2) →
    0 ≤ order.remaining_quantity →
    ∃ eng4 o4 ts,
      match_prices_buy eng order (sub.map Prod.fst) = Except.ok (eng4, o4, ts) ∧
      (∀ t ∈ ts, ∃ l ∈ sub, t.price = l.1) ∧
      (ts.map Trade.price).Chain' (· ≤ ·) ∧
      (∀ t ∈ ts, ∃ r, (∃ l ∈ sub, r ∈ l.2) ∧ r.id = t.sell_order_id ∧
        t.price = r.price ∧ r.side = OrderSide.Sell) ∧
      (∀ l ∈ sub, ∃ k, (ts.filter (fun t => t.price = l.1)).map Trade.sell_order_id
          = (l.2.map Order.id).take k) ∧
      (order.is_filled = true → ts = []) ∧
      SameCore o4 order ∧
      o4.remaining_quantity = max 0 (order.remaining_quantity - levels_volume sub) := by
  induction sub with
  | nil =>
    intro eng order hpw hget hok h0
    refine ⟨eng, order, [], ?_, by simp, by simp, by simp, by simp, fun _ => rfl,
      SameCore.refl order, ?_⟩
    · simp [match_prices_buy]
    · rw [levels_volume_nil]; omega
  | cons l0 tail ih =>
    intro eng order hpw hget hok h0
    rw [List.map_cons, List.pairwise_cons] at hpw
    have hokr : ∀ l ∈ tail, queue_ok OrderSide.Sell l.1 l.2 :=
      fun l hl => hok l (by simp [hl])
    have hok0 : queue_ok OrderSide.Sell l0.1 l0.2 := hok l0 (by simp)
    have hvtail : 0 ≤ levels_volume tail := levels_volume_nonneg hokr
    have hv0 : 0 ≤ queue_quantity l0.2 := queue_quantity_nonneg hok0
    have hgl0 : btGet l0.1 eng.sell_orders = some l0.2 := hget l0 (by simp)
    cases hfil : order.is_filled with
    | true =>
      have hrem0 : order.remaining_quantity = 0 := by
        have := (Order.is_filled_iff order).mp hfil
        omega
      refine ⟨eng, order, [], ?_, by simp, by simp, by simp, ?_, fun _ => rfl,
        SameCore.refl order, ?_⟩
      · simp [match_prices_buy, hfil]
      · intro l _
        exact ⟨0, by simp⟩
      · rw [levels_volume_cons]
        omega
    | false =>
      obtain ⟨eng2, o2, rem, ts, heqQ, hpr, htake, hmem, _hnl, hcore, hrm,
        hs2, hb2, he2, ho2⟩ :=
        match_queue_buy_spec l0.1 l0.2
          { eng with sell_orders := btRemove l0.1 eng.sell_orders } order hok0 h0
      have ho2nn : 0 ≤ o2.remaining_quantity := by rw [hrm]; omega
      have hcross : ∀ k ∈ tail.map Prod.fst, l0.1 < k := hpw.1
      have hgetTail : ∀ (m : List Level), (∀ l ∈ tail, btGet l.1 m = some l.2) →
          True := fun _ _ => trivial
      cases hre : rem.isEmpty with
      | true =>
        have hget3 : ∀ l ∈ tail, btGet l.1 eng2.sell_orders = some l.2 := by
          intro l hl
          have hne : l.1 ≠ l0.1 :=
            ne_of_gt (hcross l.1 (List.mem_map_of_mem Prod.fst hl))
          rw [hs2]
          simp only []
          rw [btGet_btRemove_ne hne]
          exact hget l (by simp [hl])
        obtain ⟨eng4, o4, ts2, heqR, hpr2, hch2, hmem2, hflt2, hnl2, hcore2, hrm2⟩ :=
          ih eng2 o2 hpw.2 hget3 hokr ho2nn
        refine ⟨eng4, o4, ts ++ ts2, ?_, ?_, ?_, ?_, ?_, ?_, ?_, ?_⟩
        · simp [match_prices_buy, hfil, hgl0, heqQ, hre, heqR]
        · intro t ht
          rcases List.mem_append.mp ht with h | h
          · exact ⟨l0, by simp, hpr t h⟩
          · obtain ⟨l, hl, hp⟩ := hpr2 t h
            exact ⟨l, by simp [hl], hp⟩
        · rw [List.map_append]
          rw [List.chain'_append]
          refine ⟨chain'_le_of_const (by intro x hx; obtain ⟨t, ht, rfl⟩ := List.mem_map.mp hx; exact hpr t ht), hch2, ?_⟩
          intro x hx y hy
          have hxm : x ∈ ts.map Trade.price := List.mem_of_mem_getLast? hx
          obtain ⟨t, ht, rfl⟩ := List.mem_map.mp hxm
          have hym : y ∈ ts2.map Trade.price := List.mem_of_mem_head? hy
          obtain ⟨u, hu, rfl⟩ := List.mem_map.mp hym
          obtain ⟨l, hl, hp⟩ := hpr2 u hu
          rw [hpr t ht, hp]
          exact le_of_lt (hcross l.1 (List.mem_map_of_mem Prod.fst hl))
        · intro t ht
          rcases List.mem_append.mp ht with h | h
          · obtain ⟨r, hr, hri, hrp, hrs⟩ := hmem t h
            exact ⟨r, ⟨l0, by simp, hr⟩, hri, hrp, hrs⟩
          · obtain ⟨r, ⟨l, hl, hr⟩, hri, hrp, hrs⟩ := hmem2 t h
            exact ⟨r, ⟨l, by simp [hl], hr⟩, hri, hrp, hrs⟩
        · intro l hl
          rcases List.mem_cons.mp hl with h | h
          · subst h
            refine ⟨ts.length, ?_⟩
            rw [List.filter_append]
            have h1 : ts.filter (fun t => decide (t.price = l.1)) = ts :=
              List.filter_eq_self.mpr (fun t ht => decide_eq_true (hpr t ht))
            have h2 : ts2.filter (fun t => decide (t.price = l.1)) = [] := by
              rw [List.filter_eq_nil_iff]
              intro u hu
              obtain ⟨l', hl', hp⟩ := hpr2 u hu
              have : l.1 < l'.1 := hcross l'.1 (List.mem_map_of_mem Prod.fst hl')
              simp only [decide_eq_true_eq]
              rw [hp]
              exact ne_of_gt this
            rw [h1, h2, List.append_nil, htake]
          · obtain ⟨k, hk⟩ := hflt2 l h
            refine ⟨k, ?_⟩
            rw [List.filter_append]
            have h1 : ts.filter (fun t => decide (t.price = l.1)) = [] := by
              rw [List.filter_eq_nil_iff]
              intro u hu
              have : l0.1 < l.1 := hcross l.1 (List.mem_map_of_mem Prod.fst h)
              simp only [decide_eq_true_eq]
              rw [hpr u hu]
              exact ne_of_lt this
            rw [h1, List.nil_append, hk]
        · intro hcon; simp [hfil] at hcon
        · exact SameCore.trans hcore2 hcore
        · rw [hrm2, hrm, levels_volume_cons]
          omega
      | false =>
        have hget3 : ∀ l ∈ tail,
            btGet l.1 ({ eng2 with sell_orders := btInsert l0.1 rem eng2.sell_orders } :
              OrderBookEngine).sell_orders = some l.2 := by
          intro l hl
          have hne : l.1 ≠ l0.1 :=
            ne_of_gt (hcross l.1 (List.mem_map_of_mem Prod.fst hl))
          simp only []
          rw [btGet_btInsert_ne hne, hs2]
          simp only []
          rw [btGet_btRemove_ne hne]
          exact hget l (by simp [hl])
        obtain ⟨eng4, o4, ts2, heqR, hpr2, hch2, hmem2, hflt2, hnl2, hcore2, hrm2⟩ :=
          ih { eng2 with sell_orders := btInsert l0.1 rem eng2.sell_orders } o2
            hpw.2 hget3 hokr ho2nn
        refine ⟨eng4, o4, ts ++ ts2, ?_, ?_, ?_, ?_, ?_, ?_, ?_, ?_⟩
        · simp [match_prices_buy, hfil, hgl0, heqQ, hre, heqR]
        · intro t ht
          rcases List.mem_append.mp ht with h | h
          · exact ⟨l0, by simp, hpr t h⟩
          · obtain ⟨l, hl, hp⟩ := hpr2 t h
            exact ⟨l, by simp [hl], hp⟩
        · rw [List.map_append]
          rw [List.chain'_append]
          refine ⟨chain'_le_of_const (by intro x hx; obtain ⟨t, ht, rfl⟩ := List.mem_map.mp hx; exact hpr t ht), hch2, ?_⟩
          intro x hx y hy
          have hxm : x ∈ ts.map Trade.price := List.mem_of_mem_getLast? hx
          obtain ⟨t, ht, rfl⟩ := List.mem_map.mp hxm
          have hym : y ∈ ts2.map Trade.price := List.mem_of_mem_head? hy
          obtain ⟨u, hu, rfl⟩ := List.mem_map.mp hym
          obtain ⟨l, hl, hp⟩ := hpr2 u hu
          rw [hpr t ht, hp]
          exact le_of_lt (hcross l.1 (List.mem_map_of_mem Prod.fst hl))
        · intro t ht
          rcases List.mem_append.mp ht with h | h
          · obtain ⟨r, hr, hri, hrp, hrs⟩ := hmem t h
            exact ⟨r, ⟨l0, by simp, hr⟩, hri, hrp, hrs⟩
          · obtain ⟨r, ⟨l, hl, hr⟩, hri, hrp, hrs⟩ := hmem2 t h
            exact ⟨r, ⟨l, by simp [hl], hr⟩, hri, hrp, hrs⟩
        · intro l hl
          rcases List.mem_cons.mp hl with h | h
          · subst h
            refine ⟨ts.length, ?_⟩
            rw [List.filter_append]
            have h1 : ts.filter (fun t => decide (t.price = l.1)) = ts :=
              List.filter_eq_self.mpr (fun t ht => decide_eq_true (hpr t ht))
            have h2 : ts2.filter (fun t => decide (t.price = l.1)) = [] := by
              rw [List.filter_eq_nil_iff]
              intro u hu
              obtain ⟨l', hl', hp⟩ := hpr2 u hu
              have : l.1 < l'.1 := hcross l'.1 (List.mem_map_of_mem Prod.fst hl')
              simp only [decide_eq_true_eq]
              rw [hp]
              exact ne_of_gt this
            rw [h1, h2, List.append_nil, htake]
          · obtain ⟨k, hk⟩ := hflt2 l h
            refine ⟨k, ?_⟩
            rw [List.filter_append]
            have h1 : ts.filter (fun t => decide (t.price = l.1)) = [] := by
              rw [List.filter_eq_nil_iff]
              intro u hu
              have : l0.1 < l.1 := hcross l.1 (List.mem_map_of_mem Prod.fst h)
              simp only [decide_eq_true_eq]
              rw [hpr u hu]
              exact ne_of_lt this
            rw [h1, List.nil_append, hk]
        · intro hcon; simp [hfil] at hcon
        · exact SameCore.trans hcore2 hcore
        · rw [hrm2, hrm, levels_volume_cons]
          omega

/-! ## The outer matching loop, sell side -/

theorem match_prices_sell_spec (sub : List Level) :
    ∀ (eng : OrderBookEngine) (order : Order),
    (sub.map Prod.fst).Pairwise (fun a b => b < a) →
    (∀ l ∈ sub, btGet l.1 eng.buy_orders = some l.2) →
    (∀ l ∈ sub, queue_ok OrderSide.Buy l.1 l.2) →
    0 ≤ order.remaining_quantity →
    ∃ eng4 o4 ts,
      match_prices_sell eng order (sub.map Prod.fst) = Except.ok (eng4, o4, ts) ∧
      (∀ t ∈ ts, ∃ l ∈ sub, t.price = l.1) ∧
      (ts.map Trade.price).Chain' (fun a b => b ≤ a) ∧
      (∀ t ∈ ts, ∃ r, (∃ l ∈ sub, r ∈ l.2) ∧ r.id = t.buy_order_id ∧
        t.price = r.price ∧ r.side = OrderSide.Buy) ∧
      (∀ l ∈ sub, ∃ k, (ts.filter (fun t => t.price = l.1)).map Trade.buy_order_id
          = (l.2.map Order.id).take k) ∧
      (order.is_filled = true → ts = []) ∧
      SameCore o4 order ∧
      o4.remaining_quantity = max 0 (order.remaining_quantity - levels_volume sub) := by
  induction sub with
  | nil =>
    intro eng order hpw hget hok h0
    refine ⟨eng, order, [], ?_, by simp, by simp, by simp, by simp, fun _ => rfl,
      SameCore.refl order, ?_⟩
    · simp [match_prices_sell]
    · rw [levels_volume_nil]; omega
  | cons l0 tail ih =>
    intro eng order hpw hget hok h0
    rw [List.map_cons, List.pairwise_cons] at hpw
    have hokr : ∀ l ∈ tail, queue_ok OrderSide.Buy l.1 l.2 :=
      fun l hl => hok l (by simp [hl])
    have hok0 : queue_ok OrderSide.Buy l0.1 l0.2 := hok l0 (by simp)
    have hvtail : 0 ≤ levels_volume tail := levels_volume_nonneg hokr
    have hv0 : 0 ≤ queue_quantity l0.2 := queue_quantity_nonneg hok0
    have hgl0 : btGet l0.1 eng.buy_orders = some l0.2 := hget l0 (by simp)
    cases hfil : order.is_filled with
    | true =>
      have hrem0 : order.remaining_quantity = 0 := by
        have := (Order.is_filled_iff order).mp hfil
        omega
      refine ⟨eng, order, [], ?_, by simp, by simp, by simp, ?_, fun _ => rfl,
        SameCore.refl order, ?_⟩
      · simp [match_prices_sell, hfil]
      · intro l _
        exact ⟨0, by simp⟩
      · rw [levels_volume_cons]
        omega
    | false =>
      obtain ⟨eng2, o2, rem, ts, heqQ, hpr, htake, hmem, _hnl, hcore, hrm,
        hs2, hb2, he2, ho2⟩ :=
        match_queue_sell_spec l0.1 l0.2
          { eng with buy_orders := btRemove l0.1 eng.buy_orders } order hok0 h0
      have ho2nn : 0 ≤ o2.remaining_quantity := by rw [hrm]; omega
      have hcross : ∀ k ∈ tail.map Prod.fst, k < l0.1 := hpw.1
      cases hre : rem.isEmpty with
      | true =>
        have hget3 : ∀ l ∈ tail, btGet l.1 eng2.buy_orders = some l.2 := by
          intro l hl
          have hne : l.1 ≠ l0.1 :=
            ne_of_lt (hcross l.1 (List.mem_map_of_mem Prod.fst hl))
          rw [hb2]
          simp only []
          rw [btGet_btRemove_ne hne]
          exact hget l (by simp [hl])
        obtain ⟨eng4, o4, ts2, heqR, hpr2, hch2, hmem2, hflt2, hnl2, hcore2, hrm2⟩ :=
          ih eng2 o2 hpw.2 hget3 hokr ho2nn
        refine ⟨eng4, o4, ts ++ ts2, ?_, ?_, ?_, ?_, ?_, ?_, ?_, ?_⟩
        · simp [match_prices_sell, hfil, hgl0, heqQ, hre, heqR]
        · intro t ht
          rcases List.mem_append.mp ht with h | h
          · exact ⟨l0, by simp, hpr t h⟩
          · obtain ⟨l, hl, hp⟩ := hpr2 t h
            exact ⟨l, by simp [hl], hp⟩
        · rw [List.map_append]
          rw [List.chain'_append]
          refine ⟨chain'_ge_of_const (by intro x hx; obtain ⟨t, ht, rfl⟩ := List.mem_map.mp hx; exact hpr t ht), hch2, ?_⟩
          intro x hx y hy
          have hxm : x ∈ ts.map Trade.price := List.mem_of_mem_getLast? hx
          obtain ⟨t, ht, rfl⟩ := List.mem_map.mp hxm
          have hym : y ∈ ts2.map Trade.price := List.mem_of_mem_head? hy
          obtain ⟨u, hu, rfl⟩ := List.mem_map.mp hym
          obtain ⟨l, hl, hp⟩ := hpr2 u hu
          rw [hpr t ht, hp]
          exact le_of_lt (hcross l.1 (List.mem_map_of_mem Prod.fst hl))
        · intro t ht
          rcases List.mem_append.mp ht with h | h
          · obtain ⟨r, hr, hri, hrp, hrs⟩ := hmem t h
            exact ⟨r, ⟨l0, by simp, hr⟩, hri, hrp, hrs⟩
          · obtain ⟨r, ⟨l, hl, hr⟩, hri, hrp, hrs⟩ := hmem2 t h
            exact ⟨r, ⟨l, by simp [hl], hr⟩, hri, hrp, hrs⟩
        · intro l hl
          rcases List.mem_cons.mp hl with h | h
          · subst h
            refine ⟨ts.length, ?_⟩
            rw [List.filter_append]
            have h1 : ts.filter (fun t => decide (t.price = l.1)) = ts :=
              List.filter_eq_self.mpr (fun t ht => decide_eq_true (hpr t ht))
            have h2 : ts2.filter (fun t => decide (t.price = l.1)) = [] := by
              rw [List.filter_eq_nil_iff]
              intro u hu
              obtain ⟨l', hl', hp⟩ := hpr2 u hu
              have : l'.1 < l.1 := hcross l'.1 (List.mem_map_of_mem Prod.fst hl')
              simp only [decide_eq_true_eq]
              rw [hp]
              exact ne_of_lt this
            rw [h1, h2, List.append_nil, htake]
          · obtain ⟨k, hk⟩ := hflt2 l h
            refine ⟨k, ?_⟩
            rw [List.filter_append]
            have h1 : ts.filter (fun t => decide (t.price = l.1)) = [] := by
              rw [List.filter_eq_nil_iff]
              intro u hu
              have : l.1 < l0.1 := hcross l.1 (List.mem_map_of_mem Prod.fst h)
              simp only [decide_eq_true_eq]
              rw [hpr u hu]
              exact ne_of_gt this
            rw [h1, List.nil_append, hk]
        · intro hcon; simp [hfil] at hcon
        · exact SameCore.trans hcore2 hcore
        · rw [hrm2, hrm, levels_volume_cons]
          omega
      | false =>
        have hget3 : ∀ l ∈ tail,
            btGet l.1 ({ eng2 with buy_orders := btInsert l0.1 rem eng2.buy_orders } :
              OrderBookEngine).buy_orders = some l.2 := by
          intro l hl
          have hne : l.1 ≠ l0.1 :=
            ne_of_lt (hcross l.1 (List.mem_map_of_mem Prod.fst hl))
          simp only []
          rw [btGet_btInsert_ne hne, hb2]
          simp only []
          rw [btGet_btRemove_ne hne]
          exact hget l (by simp [hl])
        obtain ⟨eng4, o4, ts2, heqR, hpr2, hch2, hmem2, hflt2, hnl2, hcore2, hrm2⟩ :=
          ih { eng2 with buy_orders := btInsert l0.1 rem eng2.buy_orders } o2
            hpw.2 hget3 hokr ho2nn
        refine ⟨eng4, o4, ts ++ ts2, ?_, ?_, ?_, ?_, ?_, ?_, ?_, ?_⟩
        · simp [match_prices_sell, hfil, hgl0, heqQ, hre, heqR]
        · intro t ht
          rcases List.mem_append.mp ht with h | h
          · exact ⟨l0, by simp, hpr t h⟩
          · obtain ⟨l, hl, hp⟩ := hpr2 t h
            exact ⟨l, by simp [hl], hp⟩
        · rw [List.map_append]
          rw [List.chain'_append]
          refine ⟨chain'_ge_of_const (by intro x hx; obtain ⟨t, ht, rfl⟩ := List.mem_map.mp hx; exact hpr t ht), hch2, ?_⟩
          intro x hx y hy
          have hxm : x ∈ ts.map Trade.price := List.mem_of_mem_getLast? hx
          obtain ⟨t, ht, rfl⟩ := List.mem_map.mp hxm
          have hym : y ∈ ts2.map Trade.price := List.mem_of_mem_head? hy
          obtain ⟨u, hu, rfl⟩ := List.mem_map.mp hym
          obtain ⟨l, hl, hp⟩ := hpr2 u hu
          rw [hpr t ht, hp]
          exact le_of_lt (hcross l.1 (List.mem_map_of_mem Prod.fst hl))
        · intro t ht
          rcases List.mem_append.mp ht with h | h
          · obtain ⟨r, hr, hri, hrp, hrs⟩ := hmem t h
            exact ⟨r, ⟨l0, by simp, hr⟩, hri, hrp, hrs⟩
          · obtain ⟨r, ⟨l, hl, hr⟩, hri, hrp, hrs⟩ := hmem2 t h
            exact ⟨r, ⟨l, by simp [hl], hr⟩, hri, hrp, hrs⟩
        · intro l hl
          rcases List.mem_cons.mp hl with h | h
          · subst h
            refine ⟨ts.length, ?_⟩
            rw [List.filter_append]
            have h1 : ts.filter (fun t => decide (t.price = l.1)) = ts :=
              List.filter_eq_self.mpr (fun t ht => decide_eq_true (hpr t ht))
            have h2 : ts2.filter (fun t => decide (t.price = l.1)) = [] := by
              rw [List.filter_eq_nil_iff]
              intro u hu
              obtain ⟨l', hl', hp⟩ := hpr2 u hu
              have : l'.1 < l.1 := hcross l'.1 (List.mem_map_of_mem Prod.fst hl')
              simp only [decide_eq_true_eq]
              rw [hp]
              exact ne_of_lt this
            rw [h1, h2, List.append_nil, htake]
          · obtain ⟨k, hk⟩ := hflt2 l h
            refine ⟨k, ?_⟩
            rw [List.filter_append]
            have h1 : ts.filter (fun t => decide (t.price = l.1)) = [] := by
              rw [List.filter_eq_nil_iff]
              intro u hu
              have : l.1 < l0.1 := hcross l.1 (List.mem_map_of_mem Prod.fst h)
              simp only [decide_eq_true_eq]
              rw [hpr u hu]
              exact ne_of_gt this
            rw [h1, List.nil_append, hk]
        · intro hcon; simp [hfil] at hcon
        · exact SameCore.trans hcore2 hcore
        · rw [hrm2, hrm, levels_volume_cons]
          omega

/-! ## match_order wrappers -/

theorem levels_volume_reverse (ls : List Level) :
    levels_volume ls.reverse = levels_volume ls := by
  simp [levels_volume, List.map_reverse, List.sum_reverse]

theorem keys_pairwise_of_sorted {ls : List Level} (h : levels_sorted ls) :
    (ls.map Prod.fst).Pairwise (· < ·) :=
  List.chain'_iff_pairwise.mp h

theorem keys_nodup_of_sorted {ls : List Level} (h : levels_sorted ls) :
    (ls.map Prod.fst).Nodup :=
  (keys_pairwise_of_sorted h).imp (fun hlt => ne_of_lt hlt)

theorem match_order_buy_spec (eng : OrderBookEngine) (order : Order)
    (hsort : levels_sorted eng.sell_orders)
    (hok : side_ok OrderSide.Sell eng.sell_orders)
    (hside : order.side = OrderSide.Buy)
    (h0 : 0 ≤ order.remaining_quantity) :
    ∃ eng' o' ts, match_order eng order = Except.ok (eng', o', ts) ∧
      (∀ t ∈ ts, t.price ≤ order.price) ∧
      (ts.map Trade.price).Chain' (· ≤ ·) ∧
      (∀ t ∈ ts, ∃ r, (∃ l ∈ eng.sell_orders, r ∈ l.2) ∧ r.id = t.sell_order_id ∧
        t.price = r.price ∧ r.side = OrderSide.Sell) ∧
      (∀ l ∈ eng.sell_orders, ∃ k,
        (ts.filter (fun t => t.price = l.1)).map Trade.sell_order_id
          = (l.2.map Order.id).take k) ∧
      (order.is_filled = true → ts = []) ∧
      SameCore o' order ∧
      o'.remaining_quantity = max 0 (order.remaining_quantity - available_volume eng order) := by
  have hpwAll := keys_pairwise_of_sorted hsort
  have hnd := keys_nodup_of_sorted hsort
  have hsub : ((eng.sell_orders.filter (fun l => l.1 ≤ order.price)).map Prod.fst).Pairwise
      (· < ·) :=
    hpwAll.sublist (List.Sublist.map Prod.fst (List.filter_sublist eng.sell_orders))
  have hget : ∀ l ∈ eng.sell_orders.filter (fun l => l.1 ≤ order.price),
      btGet l.1 eng.sell_orders = some l.2 :=
    fun l hl => btGet_eq_of_mem hnd ((List.mem_filter.mp hl).1)
  have hok' : ∀ l ∈ eng.sell_orders.filter (fun l => l.1 ≤ order.price),
      queue_ok OrderSide.Sell l.1 l.2 :=
    fun l hl => hok l ((List.mem_filter.mp hl).1)
  obtain ⟨eng4, o4, ts, heq, hlv, hch, hmem, hflt, hnl, hcore, hrm⟩ :=
    match_prices_buy_spec (eng.sell_orders.filter (fun l => l.1 ≤ order.price))
      eng order hsub hget hok' h0
  refine ⟨eng4, o4, ts, ?_, ?_, hch, ?_, ?_, hnl, hcore, ?_⟩
  · simp only [match_order, hside]
    exact heq
  · intro t ht
    obtain ⟨l, hl, hp⟩ := hlv t ht
    rw [hp]
    exact of_decide_eq_true (List.mem_filter.mp hl).2
  · intro t ht
    obtain ⟨r, ⟨l, hl, hr⟩, hri, hrp, hrs⟩ := hmem t ht
    exact ⟨r, ⟨l, List.mem_of_mem_filter hl, hr⟩, hri, hrp, hrs⟩
  · intro l hl
    by_cases hcr : l.1 ≤ order.price
    · exact hflt l (List.mem_filter.mpr ⟨hl, decide_eq_true hcr⟩)
    · refine ⟨0, ?_⟩
      have : ts.filter (fun t => decide (t.price = l.1)) = [] := by
        rw [List.filter_eq_nil_iff]
        intro t ht
        obtain ⟨l', hl', hp⟩ := hlv t ht
        have h1 : l'.1 ≤ order.price := of_decide_eq_true (List.mem_filter.mp hl').2
        simp only [decide_eq_true_eq]
        rw [hp]
        intro hcon
        exact hcr (hcon ▸ h1)
      rw [this]
      simp
  · rw [hrm]
    simp only [available_volume, hside]

set_option maxHeartbeats 1000000 in
theorem match_order_sell_spec (eng : OrderBookEngine) (order : Order)
    (hsort : levels_sorted eng.buy_orders)
    (hok : side_ok OrderSide.Buy eng.buy_orders)
    (hside : order.side = OrderSide.Sell)
    (h0 : 0 ≤ order.remaining_quantity) :
    ∃ eng' o' ts, match_order eng order = Except.ok (eng', o', ts) ∧
      (∀ t ∈ ts, order.price ≤ t.price) ∧
      (ts.map Trade.price).Chain' (fun a b => b ≤ a) ∧
      (∀ t ∈ ts, ∃ r, (∃ l ∈ eng.buy_orders, r ∈ l.2) ∧ r.id = t.buy_order_id ∧
        t.price = r.price ∧ r.side = OrderSide.Buy) ∧
      (∀ l ∈ eng.buy_orders, ∃ k,
        (ts.filter (fun t => t.price = l.1)).map Trade.buy_order_id
          = (l.2.map Order.id).take k) ∧
      (order.is_filled = true → ts = []) ∧
      SameCore o' order ∧
      o'.remaining_quantity = max 0 (order.remaining_quantity - available_volume eng order) := by
  have hpwAll := keys_pairwise_of_sorted hsort
  have hnd := keys_nodup_of_sorted hsort
  have hsubf : ((eng.buy_orders.filter (fun l => order.price ≤ l.1)).map Prod.fst).Pairwise
      (· < ·) :=
    hpwAll.sublist (List.Sublist.map Prod.fst (List.filter_sublist eng.buy_orders))
  have hsub : (((eng.buy_orders.filter (fun l => order.price ≤ l.1)).reverse.map
      Prod.fst)).Pairwise (fun a b => b < a) := by
    rw [List.map_reverse]
    exact (List.pairwise_reverse).mpr hsubf
  have hget : ∀ l ∈ (eng.buy_orders.filter (fun l => order.price ≤ l.1)).reverse,
      btGet l.1 eng.buy_orders = some l.2 :=
    fun l hl => btGet_eq_of_mem hnd ((List.mem_filter.mp (List.mem_reverse.mp hl)).1)
  have hok' : ∀ l ∈ (eng.buy_orders.filter (fun l => order.price ≤ l.1)).reverse,
      queue_ok OrderSide.Buy l.1 l.2 :=
    fun l hl => hok l ((List.mem_filter.mp (List.mem_reverse.mp hl)).1)
  obtain ⟨eng4, o4, ts, heq, hlv, hch, hmem, hflt, hnl, hcore, hrm⟩ :=
    match_prices_sell_spec ((eng.buy_orders.filter (fun l => order.price ≤ l.1)).reverse)
      eng order hsub hget hok' h0
  refine ⟨eng4, o4, ts, ?_, ?_, hch, ?_, ?_, hnl, hcore, ?_⟩
  · simp only [match_order, hside]
    rw [List.map_reverse] at heq
    exact heq
  · intro t ht
    obtain ⟨l, hl, hp⟩ := hlv t ht
    rw [hp]
    exact of_decide_eq_true (List.mem_filter.mp (List.mem_reverse.mp hl)).2
  · intro t ht
    obtain ⟨r, ⟨l, hl, hr⟩, hri, hrp, hrs⟩ := hmem t ht
    exact ⟨r, ⟨l, List.mem_of_mem_filter (List.mem_reverse.mp hl), hr⟩, hri, hrp, hrs⟩
  · intro l hl
    by_cases hcr : order.price ≤ l.1
    · exact hflt l (List.mem_reverse.mpr (List.mem_filter.mpr ⟨hl, decide_eq_true hcr⟩))
    · refine ⟨0, ?_⟩
      have : ts.filter (fun t => decide (t.price = l.1)) = [] := by
        rw [List.filter_eq_nil_iff]
        intro t ht
        obtain ⟨l', hl', hp⟩ := hlv t ht
        have h1 : order.price ≤ l'.1 :=
          of_decide_eq_true (List.mem_filter.mp (List.mem_reverse.mp hl')).2
        simp only [decide_eq_true_eq]
        rw [hp]
        intro hcon
        exact hcr (hcon ▸ h1)
      rw [this]
      simp
  · rw [hrm]
    simp only [available_volume, hside]
    rw [levels_volume_reverse]

/-! ## Claim C1 -/

/-- C1: for every well-formed order book and every incoming limit order,
`match_order` (the matching step of `submit`) only generates trades against
opposite-side resting orders whose price crosses the limit (inclusive at
equality), consumes resting orders in strict price-time priority (best price
level first, FIFO within a level: the counter-orders consumed at each level
are a prefix of that level's queue), and every emitted trade's price equals
the resting order's price. -/
theorem C1_limit_match_price_time_priority (eng : OrderBookEngine) (order : Order)
    (hwf : BookWF eng) ( _hlim : order.order_type = OrderType.Limit)
    (h0 : 0 ≤ order.remaining_quantity) :
    ∃ eng' o' ts, match_order eng order = Except.ok (eng', o', ts) ∧
      (∀ t ∈ ts, crosses order.side order.price t.price) ∧
      prices_best_first order.side (ts.map Trade.price) ∧
      (∀ t ∈ ts, ∃ r, (∃ l ∈ opposite_levels eng order.side, r ∈ l.2) ∧
        r.id = trade_counter_id order.side t ∧ t.price = r.price ∧
        r.side = OrderSide.flip order.side) ∧
      (∀ l ∈ opposite_levels eng order.side, ∃ k,
        (ts.filter (fun t => t.price = l.1)).map (trade_counter_id order.side)
          = (l.2.map Order.id).take k) := by
  obtain ⟨hbs, hss, hbo, hso⟩ := hwf
  cases hside : order.side with
  | Buy =>
    obtain ⟨eng', o', ts, heq, hcr, hch, hmem, hflt, _, _, _⟩ :=
      match_order_buy_spec eng order hss hso hside h0
    have hcid : trade_counter_id OrderSide.Buy = Trade.sell_order_id := rfl
    refine ⟨eng', o', ts, heq, ?_, ?_, ?_, ?_⟩
    · simpa [crosses, hside] using hcr
    · simpa [prices_best_first, hside] using hch
    · simpa [opposite_levels, OrderSide.flip, hside, hcid] using hmem
    · simpa [opposite_levels, hside, hcid] using hflt
  | Sell =>
    obtain ⟨eng', o', ts, heq, hcr, hch, hmem, hflt, _, _, _⟩ :=
      match_order_sell_spec eng order hbs hbo hside h0
    have hcid : trade_counter_id OrderSide.Sell = Trade.buy_order_id := rfl
    refine ⟨eng', o', ts, heq, ?_, ?_, ?_, ?_⟩
    · simpa [crosses, hside] using hcr
    · simpa [prices_best_first, hside] using hch
    · simpa [opposite_levels, OrderSide.flip, hside, hcid] using hmem
    · simpa [opposite_levels, hside, hcid] using hflt

def w1_s60 : Order :=
  { id := "s60", user_id := 30, event_id := 1, option_id := 1,
    side := OrderSide.Sell, order_type := OrderType.Limit,
    time_in_force := TimeInForce.GTC, price := 3/5, quantity := 3,
    filled_quantity := 0, status := OrderStatus.Pending }

def w1_s70 : Order :=
  { id := "s70", user_id := 31, event_id := 1, option_id := 1,
    side := OrderSide.Sell, order_type := OrderType.Limit,
    time_in_force := TimeInForce.GTC, price := 7/10, quantity := 4,
    filled_quantity := 0, status := OrderStatus.Pending }

def w1_eng : OrderBookEngine :=
  { event_id := 1, option_id := 1, buy_orders := [],
    sell_orders := [(3/5, [w1_s60]), (7/10, [w1_s70])],
    orders_map := [("s60", w1_s60), ("s70", w1_s70)],
    trades := [], last_trade_price := none }

def w1_order : Order :=
  { id := "in1", user_id := 40, event_id := 1, option_id := 1,
    side := OrderSide.Buy, order_type := OrderType.Limit,
    time_in_force := TimeInForce.GTC, price := 13/20, quantity := 10,
    filled_quantity := 0, status := OrderStatus.Pending }

/-- Witness for C1 at a concrete two-level book. -/
theorem C1_witness :
    ∃ eng' o' ts, match_order w1_eng w1_order = Except.ok (eng', o', ts) ∧
      (∀ t ∈ ts, crosses w1_order.side w1_order.price t.price) ∧
      prices_best_first w1_order.side (ts.map Trade.price) ∧
      (∀ t ∈ ts, ∃ r, (∃ l ∈ opposite_levels w1_eng w1_order.side, r ∈ l.2) ∧
        r.id = trade_counter_id w1_order.side t ∧ t.price = r.price ∧
        r.side = OrderSide.flip w1_order.side) ∧
      (∀ l ∈ opposite_levels w1_eng w1_order.side, ∃ k,
        (ts.filter (fun t => t.price = l.1)).map (trade_counter_id w1_order.side)
          = (l.2.map Order.id).take k) :=
  C1_limit_match_price_time_priority w1_eng w1_order
    (by with_unfolding_all decide) rfl (by decide)

/-! ## can_fill_entire_order agrees with the aggregate available volume -/

theorem queue_quantity_nonneg_of_pos {q : List Order}
    (h : ∀ o ∈ q, 0 < o.remaining_quantity) : 0 ≤ queue_quantity q := by
  induction q with
  | nil => simp [queue_quantity]
  | cons o rest ih =>
    have := h o (by simp)
    have := ih (fun x hx => h x (by simp [hx]))
    rw [queue_quantity_cons]
    omega

theorem levels_volume_nonneg_of_pos {ls : List Level}
    (h : ∀ l ∈ ls, ∀ o ∈ l.2, 0 < o.remaining_quantity) : 0 ≤ levels_volume ls := by
  induction ls with
  | nil => simp [levels_volume]
  | cons l rest ih =>
    have := queue_quantity_nonneg_of_pos (h l (by simp))
    have := ih (fun x hx => h x (by simp [hx]))
    rw [levels_volume_cons]
    omega

theorem can_fill_queue_spec (q : List Order) : ∀ r : Int, 0 ≤ r →
    (∀ o ∈ q, 0 < o.remaining_quantity) →
    can_fill_queue q r = max 0 (r - queue_quantity q) := by
  induction q with
  | nil =>
    intro r h0 _
    rw [can_fill_queue, queue_quantity_nil]
    omega
  | cons o rest ih =>
    intro r h0 hpos
    have ho := hpos o (by simp)
    have hrest : ∀ x ∈ rest, 0 < x.remaining_quantity := fun x hx => hpos x (by simp [hx])
    have hv : 0 ≤ queue_quantity rest := queue_quantity_nonneg_of_pos hrest
    rw [can_fill_queue]
    by_cases hz : r - min o.remaining_quantity r = 0
    · rw [if_pos hz, queue_quantity_cons]
      omega
    · rw [if_neg hz, ih _ (by omega) hrest, queue_quantity_cons]
      omega

theorem can_fill_buy_spec (levels : List Level) : ∀ (L : Decimal) (r : Int), 0 ≤ r →
    (levels.map Prod.fst).Pairwise (· < ·) →
    (∀ l ∈ levels, ∀ o ∈ l.2, 0 < o.remaining_quantity) →
    can_fill_buy L levels r
      = max 0 (r - levels_volume (levels.filter (fun l => l.1 ≤ L))) := by
  induction levels with
  | nil =>
    intro L r h0 _ _
    rw [can_fill_buy]
    simp [levels_volume_nil]
    omega
  | cons l0 rest ih =>
    intro L r h0 hpw hpos
    rw [List.map_cons, List.pairwise_cons] at hpw
    have hpos0 := hpos l0 (by simp)
    have hposr : ∀ l ∈ rest, ∀ o ∈ l.2, 0 < o.remaining_quantity :=
      fun l hl => hpos l (by simp [hl])
    rw [can_fill_buy]
    by_cases hbr : L < l0.1
    · rw [if_pos hbr]
      have hrf : rest.filter (fun l => decide (l.1 ≤ L)) = [] := by
        rw [List.filter_eq_nil_iff]
        intro l hl
        have h1 : l0.1 < l.1 := hpw.1 l.1 (List.mem_map_of_mem Prod.fst hl)
        simp only [decide_eq_true_eq]
        intro hcon
        exact absurd (lt_of_lt_of_le (hbr.trans h1) hcon) (lt_irrefl L)
      have hno : decide (l0.1 ≤ L) = false := by
        simp only [decide_eq_false_iff_not]
        exact not_le.mpr hbr
      rw [List.filter_cons, hno]
      simp only [if_false, Bool.false_eq_true, hrf]
      rw [levels_volume_nil]
      omega
    · rw [if_neg hbr]
      have hyes : decide (l0.1 ≤ L) = true := decide_eq_true (not_lt.mp hbr)
      have hq := can_fill_queue_spec l0.2 r h0 hpos0
      have hvr : 0 ≤ levels_volume (rest.filter (fun l => decide (l.1 ≤ L))) :=
        levels_volume_nonneg_of_pos
          (fun l hl => hposr l (List.mem_of_mem_filter hl))
      have hv0 : 0 ≤ queue_quantity l0.2 := queue_quantity_nonneg_of_pos hpos0
      rw [List.filter_cons, hyes]
      simp only [if_true]
      rw [levels_volume_cons]
      by_cases hz : can_fill_queue l0.2 r = 0
      · rw [if_pos hz]
        rw [hq] at hz
        omega
      · rw [if_neg hz]
        rw [ih L (can_fill_queue l0.2 r) (by rw [hq]; omega) hpw.2 hposr]
        rw [hq]
        omega

theorem can_fill_sell_spec (levels : List Level) : ∀ (L : Decimal) (r : Int), 0 ≤ r →
    (levels.map Prod.fst).Pairwise (fun a b => b < a) →
    (∀ l ∈ levels, ∀ o ∈ l.2, 0 < o.remaining_quantity) →
    can_fill_sell L levels r
      = max 0 (r - levels_volume (levels.filter (fun l => L ≤ l.1))) := by
  induction levels with
  | nil =>
    intro L r h0 _ _
    rw [can_fill_sell]
    simp [levels_volume_nil]
    omega
  | cons l0 rest ih =>
    intro L r h0 hpw hpos
    rw [List.map_cons, List.pairwise_cons] at hpw
    have hpos0 := hpos l0 (by simp)
    have hposr : ∀ l ∈ rest, ∀ o ∈ l.2, 0 < o.remaining_quantity :=
      fun l hl => hpos l (by simp [hl])
    rw [can_fill_sell]
    by_cases hbr : l0.1 < L
    · rw [if_pos hbr]
      have hrf : rest.filter (fun l => decide (L ≤ l.1)) = [] := by
        rw [List.filter_eq_nil_iff]
        intro l hl
        have h1 : l.1 < l0.1 := hpw.1 l.1 (List.mem_map_of_mem Prod.fst hl)
        simp only [decide_eq_true_eq]
        intro hcon
        exact absurd (lt_of_le_of_lt hcon (h1.trans hbr)) (lt_irrefl L)
      have hno : decide (L ≤ l0.1) = false := by
        simp only [decide_eq_false_iff_not]
        exact not_le.mpr hbr
      rw [List.filter_cons, hno]
      simp only [if_false, Bool.false_eq_true, hrf]
      rw [levels_volume_nil]
      omega
    · rw [if_neg hbr]
      have hyes : decide (L ≤ l0.1) = true := decide_eq_true (not_lt.mp hbr)
      have hq := can_fill_queue_spec l0.2 r h0 hpos0
      have hvr : 0 ≤ levels_volume (rest.filter (fun l => decide (L ≤ l.1))) :=
        levels_volume_nonneg_of_pos
          (fun l hl => hposr l (List.mem_of_mem_filter hl))
      have hv0 : 0 ≤ queue_quantity l0.2 := queue_quantity_nonneg_of_pos hpos0
      rw [List.filter_cons, hyes]
      simp only [if_true]
      rw [levels_volume_cons]
      by_cases hz : can_fill_queue l0.2 r = 0
      · rw [if_pos hz]
        rw [hq] at hz
        omega
      · rw [if_neg hz]
        rw [ih L (can_fill_queue l0.2 r) (by rw [hq]; omega) hpw.2 hposr]
        rw [hq]
        omega

theorem can_fill_entire_order_iff (eng : OrderBookEngine) (order : Order)
    (hwf : BookWF eng) (hq : 0 ≤ order.quantity) :
    can_fill_entire_order eng order = true ↔
      order.quantity ≤ available_volume eng order := by
  obtain ⟨hbs, hss, hbo, hso⟩ := hwf
  cases hside : order.side with
  | Buy =>
    have hpos : ∀ l ∈ eng.sell_orders, ∀ o ∈ l.2, 0 < o.remaining_quantity :=
      fun l hl o ho => ((hso l hl) o ho).2.1
    simp only [can_fill_entire_order, available_volume, hside, decide_eq_true_eq]
    rw [can_fill_buy_spec eng.sell_orders order.price order.quantity hq
      (keys_pairwise_of_sorted hss) hpos]
    omega
  | Sell =>
    have hpos : ∀ l ∈ eng.buy_orders.reverse, ∀ o ∈ l.2, 0 < o.remaining_quantity :=
      fun l hl o ho => ((hbo l (List.mem_reverse.mp hl)) o ho).2.1
    have hpw : (eng.buy_orders.reverse.map Prod.fst).Pairwise (fun a b => b < a) := by
      rw [List.map_reverse]
      exact (List.pairwise_reverse).mpr (keys_pairwise_of_sorted hbs)
    simp only [can_fill_entire_order, available_volume, hside, decide_eq_true_eq]
    rw [can_fill_sell_spec eng.buy_orders.reverse order.price order.quantity hq hpw hpos]
    rw [List.filter_reverse, levels_volume_reverse]
    omega

/-! ## Claim C2 (amended to limit orders) -/

/-- C2 (amended): for every FOK **limit** order on a well-formed book, the
aggregate volume available at acceptable prices is compared against
`order.quantity` before any state mutation; if it falls short the order is
rejected with no trades and the book unchanged, and otherwise (including exact
equality) the order fills completely. -/
theorem C2_fok_limit_all_or_nothing (eng : OrderBookEngine) (order : Order)
    (hwf : BookWF eng)
    (hev : order.event_id = eng.event_id) (hop : order.option_id = eng.option_id)
    (htif : order.time_in_force = TimeInForce.FOK)
    (hty : order.order_type = OrderType.Limit)
    (hq : 0 < order.quantity) (hf : order.filled_quantity = 0)
    (hp : 0 < order.price) :
    (available_volume eng order < order.quantity →
      submit_order eng order = Except.ok (eng, order.reject, [])) ∧
    (order.quantity ≤ available_volume eng order →
      ∃ eng' o' ts, submit_order eng order = Except.ok (eng', o', ts) ∧
        o'.is_filled = true ∧ o'.filled_quantity = order.quantity) := by
  have hc1 : ¬(order.event_id ≠ eng.event_id ∨ order.option_id ≠ eng.option_id) := by
    simp [hev, hop]
  have hc2 : ¬(order.quantity ≤ 0) := by omega
  have hc3 : ¬(order.price ≤ 0) := not_le.mpr hp
  have h0 : 0 ≤ order.remaining_quantity := by
    simp only [Order.remaining_quantity, hf]
    omega
  constructor
  · intro hlt
    have hcf : can_fill_entire_order eng order = false := by
      rw [Bool.eq_false_iff, Ne, can_fill_entire_order_iff eng order hwf (by omega)]
      omega
    have hc4 : order.time_in_force = TimeInForce.FOK ∧
        can_fill_entire_order eng order = false := ⟨htif, hcf⟩
    rw [submit_order, if_neg hc1, if_neg hc2, if_neg hc3, if_pos hc4]
  · intro hge
    have hcf : can_fill_entire_order eng order = true :=
      (can_fill_entire_order_iff eng order hwf (by omega)).mpr hge
    have hc4 : ¬(order.time_in_force = TimeInForce.FOK ∧
        can_fill_entire_order eng order = false) := by
      simp [hcf]
    have hmkt : ¬(order.order_type = OrderType.Market) := by
      simp [hty]
    obtain ⟨hbs, hss, hbo, hso⟩ := hwf
    cases hside : order.side with
    | Buy =>
      obtain ⟨eng', o', ts, heq, _, _, _, _, _, hcore, hrm⟩ :=
        match_order_buy_spec eng order hss hso hside h0
      have hrem0 : o'.remaining_quantity = 0 := by
        rw [hrm]
        simp only [Order.remaining_quantity, hf]
        omega
      have hfil' : o'.is_filled = true := (Order.is_filled_iff o').mpr (by omega)
      have hotif : o'.time_in_force = TimeInForce.FOK := by
        rw [hcore.2.2.2.2.2.2.1, htif]
      have hfq : o'.filled_quantity = order.quantity := by
        have hq' : o'.quantity = order.quantity := hcore.2.2.2.2.2.2.2.2
        simp only [Order.remaining_quantity] at hrem0
        omega
      refine ⟨eng', o', ts, ?_, hfil', hfq⟩
      rw [submit_order, if_neg hc1, if_neg hc2, if_neg hc3, if_neg hc4, if_neg hmkt,
        heq]
      simp only [hotif, hfil', if_true]
    | Sell =>
      obtain ⟨eng', o', ts, heq, _, _, _, _, _, hcore, hrm⟩ :=
        match_order_sell_spec eng order hbs hbo hside h0
      have hrem0 : o'.remaining_quantity = 0 := by
        rw [hrm]
        simp only [Order.remaining_quantity, hf]
        omega
      have hfil' : o'.is_filled = true := (Order.is_filled_iff o').mpr (by omega)
      have hotif : o'.time_in_force = TimeInForce.FOK := by
        rw [hcore.2.2.2.2.2.2.1, htif]
      have hfq : o'.filled_quantity = order.quantity := by
        have hq' : o'.quantity = order.quantity := hcore.2.2.2.2.2.2.2.2
        simp only [Order.remaining_quantity] at hrem0
        omega
      refine ⟨eng', o', ts, ?_, hfil', hfq⟩
      rw [submit_order, if_neg hc1, if_neg hc2, if_neg hc3, if_neg hc4, if_neg hmkt,
        heq]
      simp only [hotif, hfil', if_true]

def w2_s60 : Order :=
  { id := "s60", user_id := 30, event_id := 1, option_id := 1,
    side := OrderSide.Sell, order_type := OrderType.Limit,
    time_in_force := TimeInForce.GTC, price := 3/5, quantity := 3,
    filled_quantity := 0, status := OrderStatus.Pending }

def w2_s70 : Order :=
  { id := "s70", user_id := 31, event_id := 1, option_id := 1,
    side := OrderSide.Sell, order_type := OrderType.Limit,
    time_in_force := TimeInForce.GTC, price := 7/10, quantity := 4,
    filled_quantity := 0, status := OrderStatus.Pending }

def w2_eng : OrderBookEngine :=
  { event_id := 1, option_id := 1, buy_orders := [],
    sell_orders := [(3/5, [w2_s60]), (7/10, [w2_s70])],
    orders_map := [("s60", w2_s60), ("s70", w2_s70)],
    trades := [], last_trade_price := none }

/-- A market FOK buy: quantity 5 against 7 shares of crossing liquidity. -/
def c2_mkt_order : Order :=
  { id := "f1", user_id := 40, event_id := 1, option_id := 1,
    side := OrderSide.Buy, order_type := OrderType.Market,
    time_in_force := TimeInForce.FOK, price := 7/10, quantity := 5,
    filled_quantity := 0, status := OrderStatus.Pending }

/-- Counterexample to C2 as stated: a market FOK order whose acceptable-price
volume (7) covers its quantity (5) — the pre-check passes — yet `submit_order`
returns an error instead of filling completely.  (The VWAP 0.64 is re-used as
a limit price, so only the 0.60 level matches.) -/
theorem C2_counterexample :
    c2_mkt_order.quantity ≤ available_volume w2_eng c2_mkt_order ∧
    can_fill_entire_order w2_eng c2_mkt_order = true ∧
    submit_order w2_eng c2_mkt_order =
      Except.error "FOK order could not be fully filled" := by
  with_unfolding_all decide

/-- A limit FOK buy for exactly the available crossing volume. -/
def w2_order : Order :=
  { id := "f2", user_id := 41, event_id := 1, option_id := 1,
    side := OrderSide.Buy, order_type := OrderType.Limit,
    time_in_force := TimeInForce.FOK, price := 7/10, quantity := 7,
    filled_quantity := 0, status := OrderStatus.Pending }

/-- Witness for the amended C2 at a concrete book. -/
theorem C2_witness :
    (available_volume w2_eng w2_order < w2_order.quantity →
      submit_order w2_eng w2_order = Except.ok (w2_eng, w2_order.reject, [])) ∧
    (w2_order.quantity ≤ available_volume w2_eng w2_order →
      ∃ eng' o' ts, submit_order w2_eng w2_order = Except.ok (eng', o', ts) ∧
        o'.is_filled = true ∧ o'.filled_quantity = w2_order.quantity) :=
  C2_fok_limit_all_or_nothing w2_eng w2_order
    (by with_unfolding_all decide) rfl rfl rfl rfl (by decide) rfl
    (by with_unfolding_all decide)

/-! ## Claims C3 and C4: market-order execution -/

def c3_b60 : Order :=
  { id := "b60", user_id := 10, event_id := 1, option_id := 1,
    side := OrderSide.Buy, order_type := OrderType.Limit,
    time_in_force := TimeInForce.GTC, price := 3/5, quantity := 4,
    filled_quantity := 0, status := OrderStatus.Pending }

def c3_eng : OrderBookEngine :=
  { event_id := 1, option_id := 1, buy_orders := [(3/5, [c3_b60])],
    sell_orders := [], orders_map := [("b60", c3_b60)],
    trades := [], last_trade_price := none }

/-- A market sell for 5 with the handler's default GTC time-in-force. -/
def c3_order : Order :=
  { id := "m1", user_id := 20, event_id := 1, option_id := 1,
    side := OrderSide.Sell, order_type := OrderType.Market,
    time_in_force := TimeInForce.GTC, price := 1/2, quantity := 5,
    filled_quantity := 0, status := OrderStatus.Pending }

/-- C3 failing input: a market sell of 5 against a single bid level
`{0.60, 4}` fills 4, and the unfilled remainder of 1 is **inserted into the
book** as a resting ask at 0.60 (status partially_filled), instead of being
cancelled. -/
theorem C3_market_remainder_rests :
    (submit_order c3_eng c3_order).map
      (fun r => (r.2.1.status,
        r.2.2.map (fun t => (t.price, t.quantity)),
        r.1.sell_orders.map
          (fun l => (l.1, l.2.map (fun o => (o.id, o.quantity, o.filled_quantity)))))) =
    Except.ok (OrderStatus.PartiallyFilled, [(3/5, 4)], [(3/5, [("m1", 5, 4)])]) := by
  with_unfolding_all decide

def c4_b60 : Order :=
  { id := "b60", user_id := 10, event_id := 1, option_id := 1,
    side := OrderSide.Buy, order_type := OrderType.Limit,
    time_in_force := TimeInForce.GTC, price := 3/5, quantity := 4,
    filled_quantity := 0, status := OrderStatus.Pending }

def c4_b65 : Order :=
  { id := "b65", user_id := 11, event_id := 1, option_id := 1,
    side := OrderSide.Buy, order_type := OrderType.Limit,
    time_in_force := TimeInForce.GTC, price := 13/20, quantity := 3,
    filled_quantity := 0, status := OrderStatus.Pending }

def c4_eng : OrderBookEngine :=
  { event_id := 1, option_id := 1,
    buy_orders := [(3/5, [c4_b60]), (13/20, [c4_b65])],
    sell_orders := [], orders_map := [("b60", c4_b60), ("b65", c4_b65)],
    trades := [], last_trade_price := none }

def c4_order : Order :=
  { id := "m1", user_id := 20, event_id := 1, option_id := 1,
    side := OrderSide.Sell, order_type := OrderType.Market,
    time_in_force := TimeInForce.GTC, price := 1/2, quantity := 5,
    filled_quantity := 0, status := OrderStatus.Pending }

/-- C4 failing input (the specification's own example): a market sell of 5
against bids `[{0.65,3},{0.60,4}]`.  The engine records the walked VWAP 0.63
as the order price, but because that price is then used as a *limit* in
`match_order`, only the 0.65 level trades: the result is a single trade of
3 at 0.65, not the claimed trades of 3 at 0.65 and 2 at 0.60. -/
theorem C4_market_vwap_not_executed :
    (submit_order c4_eng c4_order).map
      (fun r => (r.2.1.price, r.2.2.map (fun t => (t.price, t.quantity)))) =
    Except.ok (63/100, [(13/20, 3)]) := by
  with_unfolding_all decide

/-! ## Claim C7: the quantity-zero/average-zero invariant across settlement -/

def c7_db : Db :=
  { events := [{ id := 1, title := "E", status := "ended", end_time := 0,
                 resolved_by := 0, winning_option_id := 0, resolution_note := "",
                 resolved_at := 0 }],
    options := [{ id := 2, event_id := 1, option_text := "Yes",
                  is_winning_option := none }],
    positions := [{ user_id := 7, event_id := 1, option_id := 2, quantity := 10,
                    average_price := 2/5 }],
    users := [{ id := 7, username := "u7", wallet_balance := 0 }],
    transactions := [] }

/-- Projection of a settlement outcome used to inspect the closed positions. -/
def settled_positions_view (o : SettleOutcome) : Option (List (Int × Decimal)) :=
  match o with
  | SettleOutcome.ok db => some (db.positions.map (fun p => (p.quantity, p.average_price)))
  | _ => none

/-- C7 failing input: settling the event closes the position (quantity 0) but
leaves `average_price = 0.40`, violating the invariant
`quantity = 0 → average_price = 0` that `update_position` maintains. -/
theorem C7_settlement_leaves_average_price :
    settled_positions_view (settle_event c7_db 1 2 9 "" 100) = some [(0, 2/5)] ∧
    (2/5 : Decimal) ≠ 0 := by
  with_unfolding_all decide

/-! ## Claim C8: the handler's treatment of engine-side rejection -/

def c8_eng : OrderBookEngine :=
  { event_id := 1, option_id := 1, buy_orders := [], sell_orders := [],
    orders_map := [], trades := [], last_trade_price := none }

def c8_order : Order :=
  { id := "f8", user_id := 41, event_id := 1, option_id := 1,
    side := OrderSide.Buy, order_type := OrderType.Limit,
    time_in_force := TimeInForce.FOK, price := 7/10, quantity := 5,
    filled_quantity := 0, status := OrderStatus.Pending }

/-- C8 failing input: an unfillable FOK makes the engine return `Ok` with the
order marked rejected and no trades; the handler's submit stage therefore
answers HTTP 200 `success := true` and writes no rejected order row, instead
of surfacing the rejection. -/
theorem C8_rejected_fok_reported_success :
    submit_order c8_eng c8_order = Except.ok (c8_eng, c8_order.reject, []) ∧
    (c8_order.reject).status = OrderStatus.Rejected ∧
    place_order_submit_stage c8_eng c8_order =
      (PlaceOrderResult.httpOk
        { success := true, order_id := c8_order.id, trades := [] }, none) := by
  with_unfolding_all decide

/-! ## Claim C6: position updates from a trade -/

theorem pos_matches_iff {u e o : Int} {p : PositionRow} :
    pos_matches u e o p = true ↔ p.user_id = u ∧ p.event_id = e ∧ p.option_id = o := by
  simp [pos_matches, and_assoc]

theorem find?_map_pred {f : PositionRow → PositionRow} {p : PositionRow → Bool}
    (hf : ∀ x, p (f x) = p x) :
    ∀ l : List PositionRow, (l.map f).find? p = (l.find? p).map f := by
  intro l
  induction l with
  | nil => simp
  | cons x rest ih =>
    simp only [List.map_cons, List.find?]
    rw [hf x]
    cases hx : p x with
    | true => simp
    | false => simpa using ih

theorem beq_false_of_ne {a b : Int} (h : a ≠ b) : (a == b) = false :=
  beq_eq_false_iff_ne.mpr h

/-- C6: effect of one executed trade on the positions table.  The buyer row is
created as `(q, price)` or re-averaged; the seller row must exist with enough
quantity (else the transaction errors and, the update being transactional,
no row changes), and is decremented with the average price unchanged except
that a fully closed position has its average reset to 0. -/
theorem C6_trade_position_updates (table : List PositionRow) (trade : Trade)
    (hq : 0 < trade.quantity) (hne : trade.buyer_id ≠ trade.seller_id)
    (hpos : ∀ p ∈ table, 0 ≤ p.quantity) :
    (table.find? (pos_matches trade.seller_id trade.event_id trade.option_id) = none →
      update_positions_from_trade table trade =
        Except.error "Cannot sell shares you don't own") ∧
    (∀ sp, table.find? (pos_matches trade.seller_id trade.event_id trade.option_id)
        = some sp → sp.quantity < trade.quantity →
      update_positions_from_trade table trade =
        Except.error "Insufficient shares to sell") ∧
    (∀ sp, table.find? (pos_matches trade.seller_id trade.event_id trade.option_id)
        = some sp → trade.quantity ≤ sp.quantity →
      ∃ table2, update_positions_from_trade table trade = Except.ok table2 ∧
        (table.find? (pos_matches trade.buyer_id trade.event_id trade.option_id) = none →
          table2.find? (pos_matches trade.buyer_id trade.event_id trade.option_id) =
            some { user_id := trade.buyer_id, event_id := trade.event_id,
                   option_id := trade.option_id, quantity := trade.quantity,
                   average_price := trade.price }) ∧
        (∀ bp, table.find? (pos_matches trade.buyer_id trade.event_id trade.option_id)
            = some bp →
          table2.find? (pos_matches trade.buyer_id trade.event_id trade.option_id) =
            some { bp with
              quantity := bp.quantity + trade.quantity,
              average_price := (bp.average_price * (bp.quantity : Decimal)
                + trade.price * (trade.quantity : Decimal))
                / ((bp.quantity + trade.quantity : Int) : Decimal) }) ∧
        (table2.find? (pos_matches trade.seller_id trade.event_id trade.option_id) =
          some (if sp.quantity - trade.quantity = 0
            then { sp with quantity := 0, average_price := 0 }
            else { sp with quantity := sp.quantity - trade.quantity }))) := by
  set b := trade.buyer_id with hb
  set s := trade.seller_id with hs
  set e := trade.event_id with he
  set o := trade.option_id with ho
  set q := trade.quantity with hqd
  set pr := trade.price with hpr
  -- the buyer step never errors and preserves the seller lookup
  have hbuyer : ∃ t1, update_position table b e o q pr = Except.ok t1 ∧
      t1.find? (pos_matches s e o) = table.find? (pos_matches s e o) ∧
      (table.find? (pos_matches b e o) = none →
        t1.find? (pos_matches b e o) =
          some { user_id := b, event_id := e, option_id := o, quantity := q,
                 average_price := pr }) ∧
      (∀ bp, table.find? (pos_matches b e o) = some bp →
        t1.find? (pos_matches b e o) =
          some { bp with
            quantity := bp.quantity + q,
            average_price := (bp.average_price * (bp.quantity : Decimal)
              + pr * (q : Decimal)) / ((bp.quantity + q : Int) : Decimal) }) := by
    cases hbf : table.find? (pos_matches b e o) with
    | none =>
      refine ⟨table ++ [(⟨b, e, o, q, pr⟩ : PositionRow)], ?_, ?_, ?_, ?_⟩
      · simp only [update_position, hbf]
        rw [if_neg (by omega)]
      · rw [List.find?_append]
        have hnr : pos_matches s e o (⟨b, e, o, q, pr⟩ : PositionRow) = false := by
          simp [pos_matches, beq_false_of_ne hne]
        simp [List.find?, hnr]
      · intro _
        rw [List.find?_append, hbf]
        have hnr : pos_matches b e o (⟨b, e, o, q, pr⟩ : PositionRow) = true := by
          simp [pos_matches]
        simp [List.find?, hnr]
      · intro bp hbp
        exact Option.noConfusion hbp
    | some bp =>
      have hbq : 0 ≤ bp.quantity := hpos bp (List.mem_of_find?_eq_some hbf)
      have hbm : pos_matches b e o bp = true := List.find?_some hbf
      have hbmp := pos_matches_iff.mp hbm
      have hnewq : ¬(bp.quantity + q < 0) := by omega
      have hnz : ¬(bp.quantity + q = 0) := by omega
      have heqU : update_position table b e o q pr = Except.ok (table.map
          (fun p => if pos_matches b e o p = true then
            { bp with
              quantity := bp.quantity + q,
              average_price := (bp.average_price * (bp.quantity : Decimal)
                + pr * (q : Decimal)) / ((bp.quantity + q : Int) : Decimal) }
           else p)) := by
        simp only [update_position, hbf]
        rw [if_neg hnewq, if_neg hnz, if_pos hq]
      have hfpS : ∀ x : PositionRow, pos_matches s e o
          (if pos_matches b e o x = true then
            { bp with
              quantity := bp.quantity + q,
              average_price := (bp.average_price * (bp.quantity : Decimal)
                + pr * (q : Decimal)) / ((bp.quantity + q : Int) : Decimal) }
           else x) = pos_matches s e o x := by
        intro x
        by_cases hx : pos_matches b e o x = true
        · rw [if_pos hx]
          simp [pos_matches, hbmp.1, (pos_matches_iff.mp hx).1, beq_false_of_ne hne]
        · rw [if_neg hx]
      have hfpB : ∀ x : PositionRow, pos_matches b e o
          (if pos_matches b e o x = true then
            { bp with
              quantity := bp.quantity + q,
              average_price := (bp.average_price * (bp.quantity : Decimal)
                + pr * (q : Decimal)) / ((bp.quantity + q : Int) : Decimal) }
           else x) = pos_matches b e o x := by
        intro x
        by_cases hx : pos_matches b e o x = true
        · rw [if_pos hx, hx]
          simp [pos_matches, hbmp.1, hbmp.2.1, hbmp.2.2]
        · rw [if_neg hx]
      refine ⟨_, heqU, ?_, ?_, ?_⟩
      · rw [find?_map_pred hfpS]
        cases hsf : table.find? (pos_matches s e o) with
        | none => simp
        | some sp =>
          have hsm : pos_matches s e o sp = true := List.find?_some hsf
          have hsb : pos_matches b e o sp = false := by
            simp [pos_matches, (pos_matches_iff.mp hsm).1, beq_false_of_ne (Ne.symm hne)]
          simp [hsb]
      · intro hno
        exact Option.noConfusion hno
      · intro bp' hbp'
        injection hbp' with hbe
        subst hbe
        rw [find?_map_pred hfpB]
        rw [hbf]
        simp only [Option.map_some']
        rw [if_pos hbm]
  obtain ⟨t1, ht1, hsf_pres, hb_none, hb_some⟩ := hbuyer
  refine ⟨?_, ?_, ?_⟩
  · intro hsf
    have hsf1 : t1.find? (pos_matches s e o) = none := hsf_pres.trans hsf
    simp only [update_positions_from_trade, ← hb, ← hs, ← he, ← ho, ← hqd, ← hpr, ht1]
    simp only [update_position, hsf1]
    rw [if_pos (by omega : -q < 0)]
  · intro sp hsf hlt
    have hsf1 : t1.find? (pos_matches s e o) = some sp := hsf_pres.trans hsf
    simp only [update_positions_from_trade, ← hb, ← hs, ← he, ← ho, ← hqd, ← hpr, ht1]
    simp only [update_position, hsf1]
    rw [if_pos (by omega : sp.quantity + -q < 0)]
  · intro sp hsf hge
    have hsf1 : t1.find? (pos_matches s e o) = some sp := hsf_pres.trans hsf
    have hsm : pos_matches s e o sp = true := List.find?_some hsf
    have hsmp := pos_matches_iff.mp hsm
    have hnneg : ¬(sp.quantity + -q < 0) := by omega
    have hnegq : ¬(0 < -q) := by omega
    have heqS : update_positions_from_trade table trade = Except.ok (t1.map
        (fun p => if pos_matches s e o p = true then
          (if sp.quantity + -q = 0 then { sp with quantity := 0, average_price := 0 }
           else { sp with quantity := sp.quantity + -q })
         else p)) := by
      simp only [update_positions_from_trade, ← hb, ← hs, ← he, ← ho, ← hqd, ← hpr, ht1]
      simp only [update_position, hsf1]
      rw [if_neg hnneg]
      simp only [if_neg hnegq]
    have hfpS2 : ∀ x : PositionRow, pos_matches s e o
        (if pos_matches s e o x = true then
          (if sp.quantity + -q = 0 then { sp with quantity := 0, average_price := 0 }
           else { sp with quantity := sp.quantity + -q })
         else x) = pos_matches s e o x := by
      intro x
      by_cases hx : pos_matches s e o x = true
      · rw [if_pos hx, hx]
        by_cases hz : sp.quantity + -q = 0
        · rw [if_pos hz]
          simp [pos_matches, hsmp.1, hsmp.2.1, hsmp.2.2]
        · rw [if_neg hz]
          simp [pos_matches, hsmp.1, hsmp.2.1, hsmp.2.2]
      · rw [if_neg hx]
    have hfpB2 : ∀ x : PositionRow, pos_matches b e o
        (if pos_matches s e o x = true then
          (if sp.quantity + -q = 0 then { sp with quantity := 0, average_price := 0 }
           else { sp with quantity := sp.quantity + -q })
         else x) = pos_matches b e o x := by
      intro x
      by_cases hx : pos_matches s e o x = true
      · rw [if_pos hx]
        by_cases hz : sp.quantity + -q = 0
        · rw [if_pos hz]
          simp [pos_matches, hsmp.1, (pos_matches_iff.mp hx).1,
            beq_false_of_ne (Ne.symm hne)]
        · rw [if_neg hz]
          simp [pos_matches, hsmp.1, (pos_matches_iff.mp hx).1,
            beq_false_of_ne (Ne.symm hne)]
      · rw [if_neg hx]
    refine ⟨_, heqS, ?_, ?_, ?_⟩
    · intro hno
      have hrow := hb_none hno
      rw [find?_map_pred hfpB2, hrow]
      simp only [Option.map_some']
      have hnr : pos_matches s e o (⟨b, e, o, q, pr⟩ : PositionRow) = false := by
        simp [pos_matches, beq_false_of_ne hne]
      rw [if_neg (by rw [hnr]; simp)]
    · intro bp hbp
      have hrow := hb_some bp hbp
      rw [find?_map_pred hfpB2, hrow]
      simp only [Option.map_some']
      have hbpu : bp.user_id = b := by
        have := List.find?_some hbp
        exact (pos_matches_iff.mp this).1
      have hnr : pos_matches s e o ({ bp with
          quantity := bp.quantity + q,
          average_price := (bp.average_price * (bp.quantity : Decimal)
            + pr * (q : Decimal)) / ((bp.quantity + q : Int) : Decimal) }
          : PositionRow) = false := by
        simp [pos_matches, hbpu, beq_false_of_ne hne]
      rw [if_neg (by rw [hnr]; simp)]
    · rw [find?_map_pred hfpS2, hsf1]
      simp only [Option.map_some']
      rw [if_pos hsm]
      have harith : sp.quantity + -q = sp.quantity - q := by omega
      rw [harith]

/-! ## Claim C9: cancel -/

theorem hmGet_hmRemove (k : String) (m : List (String × Order)) :
    hmGet k (hmRemove k m) = none := by
  induction m with
  | nil => simp [hmRemove, hmGet]
  | cons x rest ih =>
    by_cases hx : x.1 = k
    · simpa [hmRemove, hx] using ih
    · simp only [hmRemove, List.filter_cons]
      rw [decide_eq_true (by simpa using hx : x.1 ≠ k)]
      simp only [if_true]
      rw [hmGet, if_neg (fun h => hx h.symm)]
      simpa [hmRemove] using ih

theorem btGet_btInsert_self (p : Decimal) (v : List Order) (m : List Level) :
    btGet p (btInsert p v m) = some v := by
  induction m with
  | nil => simp [btInsert, btGet]
  | cons x rest ih =>
    by_cases h1 : p < x.1
    · simp [btInsert, if_pos h1, btGet]
    · by_cases h2 : p = x.1
      · simp [btInsert, if_neg h1, if_pos h2, btGet]
      · simp only [btInsert, if_neg h1, if_neg h2]
        rw [btGet, if_neg h2]
        exact ih

theorem exists_key_of_btGet_some {p : Decimal} {v : List Order} :
    ∀ m : List Level, btGet p m = some v → ∃ l ∈ m, l.1 = p := by
  intro m
  induction m with
  | nil => intro h; simp [btGet] at h
  | cons y ys ih =>
    intro h
    rw [btGet] at h
    by_cases hy : p = y.1
    · exact ⟨y, by simp, hy.symm⟩
    · rw [if_neg hy] at h
      obtain ⟨l, hl, he⟩ := ih h
      exact ⟨l, by simp [hl], he⟩

theorem btGet_btRemove_self {m : List Level} (p : Decimal)
    (hnd : (m.map Prod.fst).Nodup) : btGet p (btRemove p m) = none := by
  induction m with
  | nil => simp [btRemove, btGet]
  | cons x rest ih =>
    rw [List.map_cons, List.nodup_cons] at hnd
    by_cases h1 : p = x.1
    · rw [btRemove, if_pos h1]
      cases hg : btGet p rest with
      | none => rfl
      | some v =>
        exfalso
        obtain ⟨l, hl, he⟩ := exists_key_of_btGet_some rest hg
        apply hnd.1
        rw [← h1, ← he]
        exact List.mem_map_of_mem Prod.fst hl
    · rw [btRemove, if_neg h1, btGet, if_neg h1]
      exact ih hnd.2

theorem filter_length_of_count_one {qu : List Order} {oid : String}
    (h : qu.countP (fun x => x.id == oid) = 1) :
    (qu.filter (fun x => x.id ≠ oid)).length + 1 = qu.length := by
  induction qu with
  | nil =>
    rw [List.countP_nil] at h
    omega
  | cons x rest ih =>
    rw [List.countP_cons] at h
    by_cases hx : x.id = oid
    · have hb : (x.id == oid) = true := beq_iff_eq.mpr hx
      rw [hb] at h
      simp only [if_true] at h
      have hr : rest.countP (fun x => x.id == oid) = 0 := by omega
      have hall : rest.filter (fun y => decide (y.id ≠ oid)) = rest := by
        rw [List.filter_eq_self]
        intro a ha
        have : ¬(a.id == oid) = true := by
          intro hcon
          have h2 : 0 < rest.countP (fun x => x.id == oid) :=
            List.countP_pos_iff.mpr ⟨a, ha, hcon⟩
          omega
        simp only [decide_eq_true_eq]
        intro hcon
        exact this (beq_iff_eq.mpr hcon)
      rw [List.filter_cons]
      rw [decide_eq_false (by simpa using hx)]
      simp only [Bool.false_eq_true, if_false]
      rw [hall]
      simp
    · have hb : (x.id == oid) = false := beq_eq_false_iff_ne.mpr hx
      rw [hb] at h
      simp only [Bool.false_eq_true, if_false] at h
      rw [List.filter_cons]
      rw [decide_eq_true (by simpa using hx : x.id ≠ oid)]
      simp only [if_true, List.length_cons]
      have := ih h
      omega

theorem cancel_ok_orders_map {eng eng' : OrderBookEngine} {oid : String} {co : Order}
    (hok : cancel_order eng oid = Except.ok (eng', co)) :
    eng'.orders_map = hmRemove oid eng.orders_map := by
  unfold cancel_order at hok
  cases hget : hmGet oid eng.orders_map with
  | none =>
    rw [hget] at hok
    exact Except.noConfusion hok
  | some o =>
    rw [hget] at hok
    simp only [Order.cancel] at hok
    cases hside : o.side with
    | Buy =>
      rw [hside] at hok
      simp only [] at hok
      cases hbt : btGet o.price { eng with orders_map := hmRemove oid eng.orders_map }.buy_orders with
      | none =>
        rw [hbt] at hok
        injection hok with h1
        injection h1 with h2 h3
        rw [← h2]
      | some qu =>
        rw [hbt] at hok
        simp only [] at hok
        injection hok with h1
        injection h1 with h2 h3
        rw [← h2]
    | Sell =>
      rw [hside] at hok
      simp only [] at hok
      cases hbt : btGet o.price { eng with orders_map := hmRemove oid eng.orders_map }.sell_orders with
      | none =>
        rw [hbt] at hok
        injection hok with h1
        injection h1 with h2 h3
        rw [← h2]
      | some qu =>
        rw [hbt] at hok
        simp only [] at hok
        injection hok with h1
        injection h1 with h2 h3
        rw [← h2]

/-- C9: cancelling a resting order removes exactly that order from its price
level (the level is deleted when it empties), returns the order with status
cancelled and `filled_quantity` preserved; cancelling an id that is not in the
book returns an "Order not found" error with the book untouched, so a second
cancel of the same order errors and is a no-op on the book. -/
theorem C9_cancel_order_behavior (eng : OrderBookEngine) (oid : String)
    (hwf : BookWF eng) :
    (hmGet oid eng.orders_map = none →
      cancel_order eng oid = Except.error "Order not found") ∧
    (∀ o qu, hmGet oid eng.orders_map = some o → o.side = OrderSide.Buy →
      btGet o.price eng.buy_orders = some qu →
      qu.countP (fun x => x.id == o.id) = 1 →
      ∃ eng', cancel_order eng oid = Except.ok (eng', o.cancel) ∧
        (o.cancel).status = OrderStatus.Cancelled ∧
        (o.cancel).filled_quantity = o.filled_quantity ∧
        eng'.orders_map = hmRemove oid eng.orders_map ∧
        btGet o.price eng'.buy_orders =
          (if (qu.filter (fun x => x.id ≠ o.id)).isEmpty then none
           else some (qu.filter (fun x => x.id ≠ o.id))) ∧
        (qu.filter (fun x => x.id ≠ o.id)).length + 1 = qu.length ∧
        (∀ p', p' ≠ o.price → btGet p' eng'.buy_orders = btGet p' eng.buy_orders) ∧
        eng'.sell_orders = eng.sell_orders) ∧
    (∀ o qu, hmGet oid eng.orders_map = some o → o.side = OrderSide.Sell →
      btGet o.price eng.sell_orders = some qu →
      qu.countP (fun x => x.id == o.id) = 1 →
      ∃ eng', cancel_order eng oid = Except.ok (eng', o.cancel) ∧
        (o.cancel).status = OrderStatus.Cancelled ∧
        (o.cancel).filled_quantity = o.filled_quantity ∧
        eng'.orders_map = hmRemove oid eng.orders_map ∧
        btGet o.price eng'.sell_orders =
          (if (qu.filter (fun x => x.id ≠ o.id)).isEmpty then none
           else some (qu.filter (fun x => x.id ≠ o.id))) ∧
        (qu.filter (fun x => x.id ≠ o.id)).length + 1 = qu.length ∧
        (∀ p', p' ≠ o.price → btGet p' eng'.sell_orders = btGet p' eng.sell_orders) ∧
        eng'.buy_orders = eng.buy_orders) ∧
    (∀ eng' co, cancel_order eng oid = Except.ok (eng', co) →
      cancel_order eng' oid = Except.error "Order not found") := by
  obtain ⟨hbs, hss, _, _⟩ := hwf
  refine ⟨?_, ?_, ?_, ?_⟩
  · intro hget
    unfold cancel_order
    rw [hget]
  · intro o qu hget hside hbt hcount
    unfold cancel_order
    rw [hget]
    simp only [Order.cancel, hside]
    rw [show ({ o with status := OrderStatus.Cancelled } : Order).price = o.price from rfl]
    rw [hbt]
    simp only []
    cases hre : (qu.filter (fun x => x.id ≠ ({ o with status := OrderStatus.Cancelled } : Order).id)).isEmpty with
    | true =>
      simp only [if_true]
      refine ⟨_, rfl, by trivial, by trivial, by trivial, ?_, ?_, ?_, by trivial⟩
      · rw [btGet_btRemove_self o.price (keys_nodup_of_sorted hbs)]
      · exact filter_length_of_count_one hcount
      · intro p' hp'
        exact btGet_btRemove_ne hp' eng.buy_orders
    | false =>
      simp only [Bool.false_eq_true, if_false]
      refine ⟨_, rfl, by trivial, by trivial, by trivial, ?_, ?_, ?_, by trivial⟩
      · rw [btGet_btInsert_self]
      · exact filter_length_of_count_one hcount
      · intro p' hp'
        exact btGet_btInsert_ne hp' _ eng.buy_orders
  · intro o qu hget hside hbt hcount
    unfold cancel_order
    rw [hget]
    simp only [Order.cancel, hside]
    rw [show ({ o with status := OrderStatus.Cancelled } : Order).price = o.price from rfl]
    rw [hbt]
    simp only []
    cases hre : (qu.filter (fun x => x.id ≠ ({ o with status := OrderStatus.Cancelled } : Order).id)).isEmpty with
    | true =>
      simp only [if_true]
      refine ⟨_, rfl, by trivial, by trivial, by trivial, ?_, ?_, ?_, by trivial⟩
      · rw [btGet_btRemove_self o.price (keys_nodup_of_sorted hss)]
      · exact filter_length_of_count_one hcount
      · intro p' hp'
        exact btGet_btRemove_ne hp' eng.sell_orders
    | false =>
      simp only [Bool.false_eq_true, if_false]
      refine ⟨_, rfl, by trivial, by trivial, by trivial, ?_, ?_, ?_, by trivial⟩
      · rw [btGet_btInsert_self]
      · exact filter_length_of_count_one hcount
      · intro p' hp'
        exact btGet_btInsert_ne hp' _ eng.sell_orders
  · intro eng' co hok
    have hm := cancel_ok_orders_map hok
    unfold cancel_order
    rw [hm, hmGet_hmRemove]

/-! ## Claim C10: predicted price -/

theorem bid_top5_volume (eng : OrderBookEngine) :
    (((get_bid_levels eng).take 5).map PriceLevel.quantity).sum
      = levels_volume (eng.buy_orders.reverse.take 5) := by
  unfold get_bid_levels levels_volume
  rw [List.map_take, List.map_map, ← List.map_take, List.take_take]
  norm_num
  rfl

theorem ask_top5_volume (eng : OrderBookEngine) :
    (((get_ask_levels eng).take 5).map PriceLevel.quantity).sum
      = levels_volume (eng.sell_orders.take 5) := by
  unfold get_ask_levels levels_volume
  rw [List.map_take, List.map_map, ← List.map_take, List.take_take]
  norm_num
  rfl

/-- C10: with at least one bid level and one ask level, the predicted price is
`best_bid * (ask_volume/total) + best_ask * (bid_volume/total)` over the top-5
per-side volumes, and the mid-price when both volumes are zero. -/
theorem C10_predicted_price_formula (eng : OrderBookEngine) (bb ba : Decimal)
    (hbb : get_best_bid_price eng = some bb)
    (hba : get_best_ask_price eng = some ba) :
    (levels_volume (eng.buy_orders.reverse.take 5)
        + levels_volume (eng.sell_orders.take 5) ≠ 0 →
      get_predicted_price eng = some
        (bb * ((levels_volume (eng.sell_orders.take 5) : Decimal)
            / ((levels_volume (eng.buy_orders.reverse.take 5)
               + levels_volume (eng.sell_orders.take 5) : Int) : Decimal))
         + ba * ((levels_volume (eng.buy_orders.reverse.take 5) : Decimal)
            / ((levels_volume (eng.buy_orders.reverse.take 5)
               + levels_volume (eng.sell_orders.take 5) : Int) : Decimal)))) ∧
    (levels_volume (eng.buy_orders.reverse.take 5)
        + levels_volume (eng.sell_orders.take 5) = 0 →
      get_predicted_price eng = some ((bb + ba) / 2)) := by
  have hbne : eng.buy_orders ≠ [] := by
    intro h
    rw [get_best_bid_price, h] at hbb
    simp at hbb
  have hane : eng.sell_orders ≠ [] := by
    intro h
    rw [get_best_ask_price, h] at hba
    simp at hba
  have hbl : (get_bid_levels eng).isEmpty = false := by
    rw [List.isEmpty_eq_false]
    unfold get_bid_levels
    simp [hbne]
  have hal : (get_ask_levels eng).isEmpty = false := by
    rw [List.isEmpty_eq_false]
    unfold get_ask_levels
    simp [hane]
  constructor
  · intro hnz
    rw [get_predicted_price]
    simp only [hbl, hal, Bool.false_eq_true, or_self, if_false,
      bid_top5_volume, ask_top5_volume]
    rw [if_neg hnz, hbb, hba]
  · intro hz
    rw [get_predicted_price]
    simp only [hbl, hal, Bool.false_eq_true, or_self, if_false,
      bid_top5_volume, ask_top5_volume]
    rw [if_pos hz, calculate_mid_price, hbb, hba]

def w10_b : Order :=
  { id := "b40", user_id := 50, event_id := 1, option_id := 1,
    side := OrderSide.Buy, order_type := OrderType.Limit,
    time_in_force := TimeInForce.GTC, price := 2/5, quantity := 3,
    filled_quantity := 0, status := OrderStatus.Pending }

def w10_a : Order :=
  { id := "a60", user_id := 51, event_id := 1, option_id := 1,
    side := OrderSide.Sell, order_type := OrderType.Limit,
    time_in_force := TimeInForce.GTC, price := 3/5, quantity := 5,
    filled_quantity := 0, status := OrderStatus.Pending }

def w10_eng : OrderBookEngine :=
  { event_id := 1, option_id := 1, buy_orders := [(2/5, [w10_b])],
    sell_orders := [(3/5, [w10_a])],
    orders_map := [("b40", w10_b), ("a60", w10_a)],
    trades := [], last_trade_price := none }

/-- Witness for C10 at a concrete one-level-per-side book. -/
theorem C10_witness :
    (levels_volume (w10_eng.buy_orders.reverse.take 5)
        + levels_volume (w10_eng.sell_orders.take 5) ≠ 0 →
      get_predicted_price w10_eng = some
        ((2/5 : Decimal) * ((levels_volume (w10_eng.sell_orders.take 5) : Decimal)
            / ((levels_volume (w10_eng.buy_orders.reverse.take 5)
               + levels_volume (w10_eng.sell_orders.take 5) : Int) : Decimal))
         + (3/5 : Decimal) * ((levels_volume (w10_eng.buy_orders.reverse.take 5) : Decimal)
            / ((levels_volume (w10_eng.buy_orders.reverse.take 5)
               + levels_volume (w10_eng.sell_orders.take 5) : Int) : Decimal)))) ∧
    (levels_volume (w10_eng.buy_orders.reverse.take 5)
        + levels_volume (w10_eng.sell_orders.take 5) = 0 →
      get_predicted_price w10_eng = some (((2/5 : Decimal) + 3/5) / 2)) :=
  C10_predicted_price_formula w10_eng (2/5) (3/5)
    (by with_unfolding_all decide) (by with_unfolding_all decide)

/-! ## Witnesses for C6 and C9 -/

def w6_table : List PositionRow :=
  [{ user_id := 20, event_id := 1, option_id := 1, quantity := 5,
     average_price := 1/2 }]

def w6_trade : Trade :=
  { event_id := 1, option_id := 1, buyer_id := 10, seller_id := 20,
    buy_order_id := "b1", sell_order_id := "s1", price := 3/5, quantity := 2,
    total_amount := 6/5 }

/-- Witness for C6 at a concrete one-row table. -/
theorem C6_witness :
    (w6_table.find? (pos_matches w6_trade.seller_id w6_trade.event_id w6_trade.option_id) = none →
      update_positions_from_trade w6_table w6_trade =
        Except.error "Cannot sell shares you don't own") ∧
    (∀ sp, w6_table.find? (pos_matches w6_trade.seller_id w6_trade.event_id w6_trade.option_id)
        = some sp → sp.quantity < w6_trade.quantity →
      update_positions_from_trade w6_table w6_trade =
        Except.error "Insufficient shares to sell") ∧
    (∀ sp, w6_table.find? (pos_matches w6_trade.seller_id w6_trade.event_id w6_trade.option_id)
        = some sp → w6_trade.quantity ≤ sp.quantity →
      ∃ table2, update_positions_from_trade w6_table w6_trade = Except.ok table2 ∧
        (w6_table.find? (pos_matches w6_trade.buyer_id w6_trade.event_id w6_trade.option_id) = none →
          table2.find? (pos_matches w6_trade.buyer_id w6_trade.event_id w6_trade.option_id) =
            some { user_id := w6_trade.buyer_id, event_id := w6_trade.event_id,
                   option_id := w6_trade.option_id, quantity := w6_trade.quantity,
                   average_price := w6_trade.price }) ∧
        (∀ bp, w6_table.find? (pos_matches w6_trade.buyer_id w6_trade.event_id w6_trade.option_id)
            = some bp →
          table2.find? (pos_matches w6_trade.buyer_id w6_trade.event_id w6_trade.option_id) =
            some { bp with
              quantity := bp.quantity + w6_trade.quantity,
              average_price := (bp.average_price * (bp.quantity : Decimal)
                + w6_trade.price * (w6_trade.quantity : Decimal))
                / ((bp.quantity + w6_trade.quantity : Int) : Decimal) }) ∧
        (table2.find? (pos_matches w6_trade.seller_id w6_trade.event_id w6_trade.option_id) =
          some (if sp.quantity - w6_trade.quantity = 0
            then { sp with quantity := 0, average_price := 0 }
            else { sp with quantity := sp.quantity - w6_trade.quantity }))) :=
  C6_trade_position_updates w6_table w6_trade (by decide) (by decide)
    (by with_unfolding_all decide)

def w9_b : Order :=
  { id := "b1", user_id := 60, event_id := 1, option_id := 1,
    side := OrderSide.Buy, order_type := OrderType.Limit,
    time_in_force := TimeInForce.GTC, price := 2/5, quantity := 3,
    filled_quantity := 1, status := OrderStatus.PartiallyFilled }

def w9_eng : OrderBookEngine :=
  { event_id := 1, option_id := 1, buy_orders := [(2/5, [w9_b])],
    sell_orders := [], orders_map := [("b1", w9_b)],
    trades := [], last_trade_price := none }

/-- Witness for C9 at a concrete one-order book. -/
theorem C9_witness :
    (hmGet "b1" w9_eng.orders_map = none →
      cancel_order w9_eng "b1" = Except.error "Order not found") ∧
    (∀ o qu, hmGet "b1" w9_eng.orders_map = some o → o.side = OrderSide.Buy →
      btGet o.price w9_eng.buy_orders = some qu →
      qu.countP (fun x => x.id == o.id) = 1 →
      ∃ eng', cancel_order w9_eng "b1" = Except.ok (eng', o.cancel) ∧
        (o.cancel).status = OrderStatus.Cancelled ∧
        (o.cancel).filled_quantity = o.filled_quantity ∧
        eng'.orders_map = hmRemove "b1" w9_eng.orders_map ∧
        btGet o.price eng'.buy_orders =
          (if (qu.filter (fun x => x.id ≠ o.id)).isEmpty then none
           else some (qu.filter (fun x => x.id ≠ o.id))) ∧
        (qu.filter (fun x => x.id ≠ o.id)).length + 1 = qu.length ∧
        (∀ p', p' ≠ o.price → btGet p' eng'.buy_orders = btGet p' w9_eng.buy_orders) ∧
        eng'.sell_orders = w9_eng.sell_orders) ∧
    (∀ o qu, hmGet "b1" w9_eng.orders_map = some o → o.side = OrderSide.Sell →
      btGet o.price w9_eng.sell_orders = some qu →
      qu.countP (fun x => x.id == o.id) = 1 →
      ∃ eng', cancel_order w9_eng "b1" = Except.ok (eng', o.cancel) ∧
        (o.cancel).status = OrderStatus.Cancelled ∧
        (o.cancel).filled_quantity = o.filled_quantity ∧
        eng'.orders_map = hmRemove "b1" w9_eng.orders_map ∧
        btGet o.price eng'.sell_orders =
          (if (qu.filter (fun x => x.id ≠ o.id)).isEmpty then none
           else some (qu.filter (fun x => x.id ≠ o.id))) ∧
        (qu.filter (fun x => x.id ≠ o.id)).length + 1 = qu.length ∧
        (∀ p', p' ≠ o.price → btGet p' eng'.sell_orders = btGet p' w9_eng.sell_orders) ∧
        eng'.buy_orders = w9_eng.buy_orders) ∧
    (∀ eng' co, cancel_order w9_eng "b1" = Except.ok (eng', co) →
      cancel_order eng' "b1" = Except.error "Order not found") :=
  C9_cancel_order_behavior w9_eng "b1" (by with_unfolding_all decide)

/-! ## Claim C5: event settlement -/

/-- The balance credit one settled position row grants the user `uid`. -/
def position_credit (w uid : Int) (pr : PositionRow) : Decimal :=
  if pr.option_id = w ∧ pr.user_id = uid ∧ 0 < pr.quantity
  then (pr.quantity : Decimal) else 0

/-- Total balance credit `uid` receives over the processed position rows. -/
def total_credit (w uid : Int) (ps : List PositionRow) : Decimal :=
  (ps.map (position_credit w uid)).sum

theorem total_credit_nil (w uid : Int) : total_credit w uid [] = 0 := rfl

theorem total_credit_cons (w uid : Int) (pr : PositionRow) (ps : List PositionRow) :
    total_credit w uid (pr :: ps)
      = position_credit w uid pr + total_credit w uid ps := by
  simp [total_credit]

theorem mask_mask (p : PositionRow) :
    ({ ({ p with quantity := 0 } : PositionRow) with quantity := 0 } : PositionRow)
      = { p with quantity := 0 } := rfl

theorem pos_matches_mask (a b c : Int) (p : PositionRow) :
    pos_matches a b c ({ p with quantity := 0 } : PositionRow)
      = pos_matches a b c p := rfl

theorem settle_positions_spec (w : Int) (ps : List PositionRow) :
    ∀ db db2 : Db, settle_positions db w ps = Except.ok db2 →
    db2.options = db.options ∧
    db2.events = db.events ∧
    db2.users = db.users.map (fun u =>
      { u with wallet_balance := u.wallet_balance + total_credit w u.id ps }) ∧
    db2.positions = db.positions.map (fun p =>
      if ps.any (fun pr => pos_matches pr.user_id pr.event_id pr.option_id p)
      then { p with quantity := 0 } else p) ∧
    (∃ ts, db2.transactions = db.transactions ++ ts) ∧
    (∀ pr ∈ ps, pr.option_id = w → 0 < pr.quantity →
      ∃ tx ∈ db2.transactions, tx.user_id = pr.user_id ∧
        tx.tx_type = "event_payout" ∧
        tx.amount = (pr.quantity : Decimal) ∧ tx.tx_status = "completed") := by
  induction ps with
  | nil =>
    intro db db2 h
    rw [settle_positions] at h
    injection h with h
    subst h
    refine ⟨rfl, rfl, ?_, ?_, ⟨[], by simp⟩, by simp⟩
    · rw [List.map_id'' (fun u => ?_)]
      rw [total_credit_nil, add_zero]
    · rw [List.map_id'' (fun p => ?_)]
      simp
  | cons position rest ih =>
    intro db db2 h
    rw [settle_positions] at h
    cases hu : find_user db position.user_id with
    | none => rw [hu] at h; exact Except.noConfusion h
    | some user =>
    rw [hu] at h
    cases hopt : find_option db position.option_id with
    | none => rw [hopt] at h; exact Except.noConfusion h
    | some wo =>
    rw [hopt] at h
    simp only [] at h
    by_cases hwin : position.option_id = w
    · simp only [if_pos hwin] at h
      by_cases hq : (0 : Decimal) < 1 * (position.quantity : Decimal)
      · have hcond : position.option_id = w ∧
            (0 : Decimal) < 1 * (position.quantity : Decimal) := ⟨hwin, hq⟩
        simp only [if_pos hcond] at h
        obtain ⟨hopk, hevk, husk, hpsk, ⟨ts, htxk⟩, htxs⟩ := ih _ _ h
        have hqz : 0 < position.quantity := by
          rw [one_mul] at hq
          exact_mod_cast hq
        refine ⟨hopk, hevk, ?_, ?_, ?_, ?_⟩
        · rw [husk, List.map_map]
          refine List.map_congr_left (fun u _ => ?_)
          simp only [Function.comp]
          rw [total_credit_cons]
          by_cases hid : u.id = position.user_id
          · have hbe : (u.id == position.user_id) = true := by simp [hid]
            have hcred : position_credit w u.id position
                = (position.quantity : Decimal) := by
              rw [position_credit, if_pos ⟨hwin, hid.symm, hqz⟩]
            simp [hbe, hcred, add_assoc]
          · have hbe : (u.id == position.user_id) = false := by simp [hid]
            have hcred : position_credit w u.id position = 0 := by
              rw [position_credit, if_neg (fun hcon => hid hcon.2.1.symm)]
            simp [hbe, hcred]
        · rw [hpsk, List.map_map]
          refine List.map_congr_left (fun p _ => ?_)
          simp only [Function.comp, List.any_cons]
          by_cases hm : pos_matches position.user_id position.event_id position.option_id p
          · simp [hm, pos_matches_mask, mask_mask]
          · simp [hm]
        · refine ⟨(⟨position.user_id, "event_payout",
              (1 : Decimal) * (position.quantity : Decimal), user.wallet_balance,
              user.wallet_balance + (1 : Decimal) * (position.quantity : Decimal),
              "completed"⟩ : TransactionRow) :: ts, ?_⟩
          rw [htxk]
          simp
        · intro pr hpr hprw hprq
          rcases List.mem_cons.mp hpr with hpe | hmem
          · refine ⟨⟨position.user_id, "event_payout",
                (1 : Decimal) * (position.quantity : Decimal), user.wallet_balance,
                user.wallet_balance + (1 : Decimal) * (position.quantity : Decimal),
                "completed"⟩, ?_, by rw [hpe], rfl, by rw [hpe, one_mul], rfl⟩
            rw [htxk]
            exact List.mem_append_left _
              (List.mem_append_right _ (List.mem_singleton_self _))
          · exact htxs pr hmem hprw hprq
      · have hcond : ¬(position.option_id = w ∧
            (0 : Decimal) < 1 * (position.quantity : Decimal)) :=
          fun hc => hq hc.2
        simp only [if_neg hcond] at h
        obtain ⟨hopk, hevk, husk, hpsk, ⟨ts, htxk⟩, htxs⟩ := ih _ _ h
        have hcr0 : ∀ uid : Int, position_credit w uid position = 0 := by
          intro uid
          rw [position_credit, if_neg]
          intro hcon
          refine hq ?_
          rw [one_mul]
          exact_mod_cast hcon.2.2
        refine ⟨hopk, hevk, ?_, ?_, ⟨ts, htxk⟩, ?_⟩
        · rw [husk]
          refine List.map_congr_left (fun u _ => ?_)
          rw [total_credit_cons, hcr0, zero_add]
        · rw [hpsk, List.map_map]
          refine List.map_congr_left (fun p _ => ?_)
          simp only [Function.comp, List.any_cons]
          by_cases hm : pos_matches position.user_id position.event_id position.option_id p
          · simp [hm, pos_matches_mask, mask_mask]
          · simp [hm]
        · intro pr hpr hprw hprq
          rcases List.mem_cons.mp hpr with hpe | hmem
          · refine absurd ?_ hq
            rw [one_mul]
            exact_mod_cast hpe ▸ hprq
          · exact htxs pr hmem hprw hprq
    · simp only [if_neg hwin] at h
      have hcond : ¬(position.option_id = w ∧ (0 : Decimal) < 0) :=
        fun hc => hwin hc.1
      simp only [if_neg hcond] at h
      obtain ⟨hopk, hevk, husk, hpsk, ⟨ts, htxk⟩, htxs⟩ := ih _ _ h
      have hcr0 : ∀ uid : Int, position_credit w uid position = 0 := by
        intro uid
        rw [position_credit, if_neg (fun hcon => hwin hcon.1)]
      refine ⟨hopk, hevk, ?_, ?_, ⟨ts, htxk⟩, ?_⟩
      · rw [husk]
        refine List.map_congr_left (fun u _ => ?_)
        rw [total_credit_cons, hcr0, zero_add]
      · rw [hpsk, List.map_map]
        refine List.map_congr_left (fun p _ => ?_)
        simp only [Function.comp, List.any_cons]
        by_cases hm : pos_matches position.user_id position.event_id position.option_id p
        · simp [hm, pos_matches_mask, mask_mask]
        · simp [hm]
      · intro pr hpr hprw hprq
        rcases List.mem_cons.mp hpr with hpe | hmem
        · exact absurd (hpe ▸ hprw) hwin
        · exact htxs pr hmem hprw hprq

/-- C5: a successful settlement marks every option of the event as winning iff
it is the chosen one (so exactly one option of the event is winning), zeroes
every positive position of the event, credits each user one unit per winning
share with a completed `event_payout` transaction for each winning row, and
stamps the event resolved. -/
theorem C5_event_settlement (db : Db) (e w r now : Int) (note : String) (db2 : Db)
    (h : settle_event db e w r note now = SettleOutcome.ok db2)
    (hnodup : (db.options.map OptionRow.id).Nodup) :
    db2.options = db.options.map (fun opt =>
      if opt.event_id == e
      then { opt with is_winning_option := some (opt.id == w) } else opt) ∧
    (db2.options.filter
      (fun o => o.event_id == e && o.is_winning_option == some true)).length = 1 ∧
    (∀ p ∈ db.positions, p.event_id = e → 0 < p.quantity →
      ({ p with quantity := 0 } : PositionRow) ∈ db2.positions) ∧
    db2.users = db.users.map (fun u => { u with
      wallet_balance := u.wallet_balance + total_credit w u.id
        (db.positions.filter (fun p => p.event_id == e && 0 < p.quantity)) }) ∧
    (∀ p ∈ db.positions, p.event_id = e → 0 < p.quantity → p.option_id = w →
      ∃ tx ∈ db2.transactions, tx.user_id = p.user_id ∧
        tx.tx_type = "event_payout" ∧
        tx.amount = (p.quantity : Decimal) ∧ tx.tx_status = "completed") ∧
    db2.events = db.events.map (fun ev =>
      if ev.id == e
      then { ev with
        status := "resolved", resolved_by := r, winning_option_id := w,
        resolution_note := note, resolved_at := now }
      else ev) := by
  rw [settle_event] at h
  cases hev : find_event db e with
  | none => rw [hev] at h; exact SettleOutcome.noConfusion h
  | some ev =>
  rw [hev] at h
  simp only [] at h
  by_cases h1 : ev.status = "resolved"
  · rw [if_pos h1] at h; exact SettleOutcome.noConfusion h
  rw [if_neg h1] at h
  by_cases h2 : now < ev.end_time ∧ ev.status ≠ "ended"
  · rw [if_pos h2] at h; exact SettleOutcome.noConfusion h
  rw [if_neg h2] at h
  cases hwo : find_option db w with
  | none => rw [hwo] at h; exact SettleOutcome.noConfusion h
  | some wopt =>
  rw [hwo] at h
  simp only [] at h
  by_cases h3 : wopt.event_id = e
  swap
  · rw [if_neg h3] at h; exact SettleOutcome.noConfusion h
  rw [if_pos h3] at h
  cases hsp : settle_positions
      { db with options := db.options.map (fun opt =>
          if opt.event_id == e
          then { opt with is_winning_option := some (opt.id == w) } else opt) } w
      (db.positions.filter (fun p => p.event_id == e && 0 < p.quantity)) with
  | error msg => rw [hsp] at h; exact SettleOutcome.noConfusion h
  | ok dmid =>
  rw [hsp] at h
  injection h with h
  subst h
  obtain ⟨hopk, hevk, husk, hpsk, _, htxs⟩ := settle_positions_spec _ _ _ _ hsp
  have hwmem : wopt ∈ db.options := List.mem_of_find?_eq_some hwo
  have hwid : wopt.id = w := by
    have := List.find?_some hwo
    simpa using this
  refine ⟨hopk, ?_, ?_, husk, ?_, ?_⟩
  · rw [hopk, List.filter_map, List.length_map, ← List.countP_eq_length_filter]
    have hpc : ∀ o ∈ db.options,
        ((fun o : OptionRow => o.event_id == e && o.is_winning_option == some true) ∘
          (fun opt : OptionRow =>
            if opt.event_id == e
            then { opt with is_winning_option := some (opt.id == w) } else opt)) o
        = (o.event_id == e && o.id == w) := by
      intro o _
      simp only [Function.comp]
      by_cases he : o.event_id = e
      · rw [if_pos (by simp [he])]
        show (o.event_id == e && (some (o.id == w) == some true))
          = (o.event_id == e && o.id == w)
        cases hio : o.id == w with
        | true => simp [hio]
        | false => simp [hio]
      · rw [if_neg (by simp [he])]
        have hbe : (o.event_id == e) = false := by simp [he]
        rw [hbe]
        simp
    rw [List.countP_congr (fun o ho => by rw [hpc o ho])]
    have hle : db.options.countP (fun o => o.event_id == e && o.id == w)
        ≤ db.options.countP (fun o => o.id == w) :=
      List.countP_mono_left (fun o _ hpo => by
        revert hpo
        simp only [Bool.and_eq_true]
        exact fun hpo => hpo.2)
    have hone : db.options.countP (fun o => o.id == w) ≤ 1 := by
      have hcm : (db.options.map OptionRow.id).count w
          = db.options.countP (fun o => o.id == w) := by
        rw [List.count, List.countP_map]
        rfl
      rw [← hcm]
      exact List.nodup_iff_count_le_one.mp hnodup w
    have hpos : 0 < db.options.countP (fun o => o.event_id == e && o.id == w) :=
      List.countP_pos_iff.mpr ⟨wopt, hwmem, by simp [h3, hwid]⟩
    omega
  · intro p hp hpe hpq
    rw [hpsk]
    have hpfilter : p ∈ (db.positions.filter
        (fun p => p.event_id == e && 0 < p.quantity)) := by
      rw [List.mem_filter]
      exact ⟨hp, by simp [hpe, hpq]⟩
    have hany : (db.positions.filter
        (fun p => p.event_id == e && 0 < p.quantity)).any
          (fun pr => pos_matches pr.user_id pr.event_id pr.option_id p) = true := by
      rw [List.any_eq_true]
      exact ⟨p, hpfilter, by simp [pos_matches]⟩
    refine List.mem_map.mpr ⟨p, hp, ?_⟩
    rw [hany]
    rfl
  · intro p hp hpe hpq hpw
    have hpfilter : p ∈ (db.positions.filter
        (fun p => p.event_id == e && 0 < p.quantity)) := by
      rw [List.mem_filter]
      exact ⟨hp, by simp [hpe, hpq]⟩
    exact htxs p hpfilter hpw hpq
  · rw [hevk]

def w5_db : Db :=
  { events := [⟨1, "t", "ended", 0, 0, 0, "", 0⟩],
    options := [⟨1, 1, "yes", none⟩, ⟨2, 1, "no", none⟩],
    positions := [⟨10, 1, 1, 3, 1/2⟩, ⟨11, 1, 2, 2, 1/2⟩],
    users := [⟨10, "alice", 5⟩, ⟨11, "bob", 5⟩],
    transactions := [] }

def w5_db2 : Db :=
  { events := [⟨1, "t", "resolved", 0, 9, 1, "note", 100⟩],
    options := [⟨1, 1, "yes", some true⟩, ⟨2, 1, "no", some false⟩],
    positions := [⟨10, 1, 1, 0, 1/2⟩, ⟨11, 1, 2, 0, 1/2⟩],
    users := [⟨10, "alice", 8⟩, ⟨11, "bob", 5⟩],
    transactions := [⟨10, "event_payout", 3, 5, 8, "completed"⟩] }

/-- Witness for C5 at a concrete two-option event with a winner and a loser. -/
theorem C5_witness :
    w5_db2.options = w5_db.options.map (fun opt =>
      if opt.event_id == 1
      then { opt with is_winning_option := some (opt.id == 1) } else opt) ∧
    (w5_db2.options.filter
      (fun o => o.event_id == 1 && o.is_winning_option == some true)).length = 1 ∧
    (∀ p ∈ w5_db.positions, p.event_id = 1 → 0 < p.quantity →
      ({ p with quantity := 0 } : PositionRow) ∈ w5_db2.positions) ∧
    w5_db2.users = w5_db.users.map (fun u => { u with
      wallet_balance := u.wallet_balance + total_credit 1 u.id
        (w5_db.positions.filter (fun p => p.event_id == 1 && 0 < p.quantity)) }) ∧
    (∀ p ∈ w5_db.positions, p.event_id = 1 → 0 < p.quantity → p.option_id = 1 →
      ∃ tx ∈ w5_db2.transactions, tx.user_id = p.user_id ∧
        tx.tx_type = "event_payout" ∧
        tx.amount = (p.quantity : Decimal) ∧ tx.tx_status = "completed") ∧
    w5_db2.events = w5_db.events.map (fun ev =>
      if ev.id == 1
      then { ev with
        status := "resolved", resolved_by := 9, winning_option_id := 1,
        resolution_note := "note", resolved_at := 100 }
      else ev) :=
  C5_event_settlement w5_db 1 1 9 100 "note" w5_db2
    (by with_unfolding_all decide) (by decide)

end CEX
